import Mathlib

/-! OrderTrackFrontend: the order-entry form (`src/Components/OrderForm.jsx`)

A shallow embedding of the `OrderForm` React component: its state, its event
handlers (`handleInputChange`, `calculateTotal`, `handleSubmit`, the product
fetch and `retryFetchProducts`) and the parts of the rendered view that the
properties below talk about (the disabled flags, the product options, the total
block and the two banners).

The handlers use ECMAScript built-ins (`parseFloat`, `parseInt`, `Number`,
`isNaN`, `Number.prototype.toFixed`, `toString`, `*`, `||`, `===`).  They are
modelled exactly: a Number is an IEEE-754 binary64 value, represented by its
sign and an exact fraction, and every rounding is round-to-nearest, ties-to-even.

Conventions of the embedding:

* a string is a `String`; the parsers work on its list of characters;
* a numeral of any length is rounded from its exact value (ECMAScript lets an
  engine drop digits after the twentieth; the engines in use do not);
* a product's `id` and `cost` are a Number or a string, and `response.data` is
  an array of products, as the backend interface describes them;
* an `async` handler is split at its `await`: a `...Start` function for the
  part that runs at once and a `...Settle` function that takes how the request
  ended; the logging and toast calls change no state and are left out;
* a state update with an updater function is applied to the latest state, in
  the order the updates were queued.
-/

namespace OrderTrack

/-! ## ECMAScript Number values -/

/-- An ECMAScript Number.  `fin neg num den` is the finite value
`(-1)^neg * num / den`; the operations below keep `den` a power of two and the
fraction in lowest terms.  `fin true 0 1` is `-0`. -/
inductive JSNumber where
  | nan
  | inf (neg : Bool)
  | fin (neg : Bool) (num den : ℕ)
  deriving DecidableEq, Repr

/-- The Number `+0`. -/
def JSNumber.zero : JSNumber := .fin false 0 1

/-- Whether `a / b ≥ 2 ^ e`, for `b > 0`. -/
def geTwoPow (a b : ℕ) (e : ℤ) : Bool :=
  if 0 ≤ e then decide (b * 2 ^ e.toNat ≤ a) else decide (b ≤ a * 2 ^ (-e).toNat)

/-- Binary logarithm with `fuel` bounding the number of halvings. -/
def log2Fuel : ℕ → ℕ → ℕ
  | 0, _ => 0
  | fuel + 1, n => if n < 2 then 0 else log2Fuel fuel (n / 2) + 1

/-- The integer `⌊log₂ n⌋` for `n > 0` (and `0` for `n = 0`). -/
def log2 (n : ℕ) : ℕ := log2Fuel n n

/-- The binary exponent `⌊log₂ (a / b)⌋` of a positive fraction. -/
def floorLog2 (a b : ℕ) : ℤ :=
  let e0 : ℤ := (log2 a : ℤ) - (log2 b : ℤ)
  if geTwoPow a b e0 then e0 else e0 - 1

/-- Numerator and denominator of `(a / b) / 2 ^ u`. -/
def scaleTwo (a b : ℕ) (u : ℤ) : ℕ × ℕ :=
  if 0 ≤ u then (a, b * 2 ^ u.toNat) else (a * 2 ^ (-u).toNat, b)

/-- The integer nearest to `p / q`, ties to the even one. -/
def roundHalfEven (p q : ℕ) : ℕ :=
  let n := p / q
  let r := p % q
  if 2 * r < q then n else if q < 2 * r then n + 1 else if n % 2 = 0 then n else n + 1

/-- The finite Number `(-1)^neg * n * 2 ^ u`, in lowest terms. -/
def mkFin (neg : Bool) (n : ℕ) (u : ℤ) : JSNumber :=
  if 0 ≤ u then .fin neg (n * 2 ^ u.toNat) 1
  else
    let d := 2 ^ (-u).toNat
    let g := Nat.gcd n d
    .fin neg (n / g) (d / g)

/-- The Number nearest to `(-1)^neg * a / b` (`b > 0`): IEEE-754 binary64
round-to-nearest, ties-to-even, with gradual underflow and overflow to infinity. -/
def roundToDouble (neg : Bool) (a b : ℕ) : JSNumber :=
  if a = 0 then .fin neg 0 1
  else
    let u : ℤ := max (floorLog2 a b - 52) (-1074)
    let pq := scaleTwo a b u
    let n := roundHalfEven pq.1 pq.2
    if 0 ≤ u ∧ 2 ^ 1024 ≤ n * 2 ^ u.toNat then .inf neg else mkFin neg n u

/-- The Number for `(-1)^neg * m * 10 ^ e`. -/
def roundDecimal (neg : Bool) (m : ℕ) (e : ℤ) : JSNumber :=
  if 0 ≤ e then roundToDouble neg (m * 10 ^ e.toNat) 1
  else roundToDouble neg m (10 ^ (-e).toNat)

/-- ECMAScript `Number::multiply`. -/
def JSNumber.mul : JSNumber → JSNumber → JSNumber
  | .nan, _ => .nan
  | _, .nan => .nan
  | .inf s, .inf t => .inf (s != t)
  | .inf s, .fin t c _ => if c = 0 then .nan else .inf (s != t)
  | .fin s a _, .inf t => if a = 0 then .nan else .inf (s != t)
  | .fin s a b, .fin t c d => roundToDouble (s != t) (a * c) (b * d)

/-- ECMAScript `ToBoolean` on a Number: `NaN`, `+0` and `-0` are falsy. -/
def JSNumber.truthy : JSNumber → Bool
  | .nan => false
  | .inf _ => true
  | .fin _ a _ => a != 0

/-- The expression `x || 0` on Numbers. -/
def JSNumber.orZero (x : JSNumber) : JSNumber :=
  if x.truthy then x else JSNumber.zero

/-- ECMAScript `Number::equal` (used by `===`): `NaN` equals nothing, `+0`
equals `-0`, and otherwise two Numbers are equal when they are the same value. -/
def JSNumber.equal : JSNumber → JSNumber → Bool
  | .inf s, .inf t => s == t
  | .fin s a b, .fin t c d => (s == t && a == c && b == d) || (a == 0 && c == 0)
  | _, _ => false

/-- The global `isNaN` on a Number. -/
def JSNumber.isNaN : JSNumber → Bool
  | .nan => true
  | _ => false

/-- Whether a Number is an integer (finite, with denominator 1). -/
def JSNumber.isInteger : JSNumber → Bool
  | .fin _ _ d => d == 1
  | _ => false

/-- Being `NaN`, an infinity or an integer. -/
def integralOrNaN (x : JSNumber) : Prop :=
  x = .nan ∨ (∃ neg, x = .inf neg) ∨ ∃ neg m, x = .fin neg m 1

/-! ## Decimal digits -/

/-- The character of a decimal digit `d < 10`. -/
def digitChar (d : ℕ) : Char := Char.ofNat (48 + d)

/-- Decimal digits of `n`, most significant first, with `fuel` bounding the length. -/
def digitsFuel : ℕ → ℕ → List Char
  | 0, _ => []
  | fuel + 1, n => if n < 10 then [digitChar n] else digitsFuel fuel (n / 10) ++ [digitChar (n % 10)]

/-- The decimal representation of `n` without leading zeroes (`"0"` for `0`). -/
def natDigits (n : ℕ) : List Char := digitsFuel (n + 1) n

/-- The value of a decimal digit character. -/
def digitVal (c : Char) : ℕ := c.toNat - 48

/-- The value of a string of digits in radix `r`, given the value of each digit. -/
def radixValue (r : ℕ) (val : Char → ℕ) (cs : List Char) : ℕ :=
  cs.foldl (fun acc c => r * acc + val c) 0

/-- The value of a string of decimal digits. -/
def decimalValue (cs : List Char) : ℕ := radixValue 10 digitVal cs

/-! ## Strings to Numbers: `Number`, `isNaN`, `parseFloat`, `parseInt` -/

/-- ECMAScript `StrWhiteSpaceChar`: white space and line terminators. -/
def isStrWhiteSpaceChar (c : Char) : Bool :=
  let n := c.toNat
  n = 0x09 || n = 0x0A || n = 0x0B || n = 0x0C || n = 0x0D || n = 0x20 || n = 0xA0 ||
  n = 0x1680 || (0x2000 ≤ n && n ≤ 0x200A) || n = 0x2028 || n = 0x2029 || n = 0x202F ||
  n = 0x205F || n = 0x3000 || n = 0xFEFF

/-- Whether `c` is a decimal digit. -/
def isDecDigit (c : Char) : Bool := 48 ≤ c.toNat && c.toNat ≤ 57

/-- Whether `c` is a hexadecimal digit. -/
def isHexDigit (c : Char) : Bool :=
  isDecDigit c || (97 ≤ c.toNat && c.toNat ≤ 102) || (65 ≤ c.toNat && c.toNat ≤ 70)

/-- The value of a hexadecimal digit. -/
def hexVal (c : Char) : ℕ :=
  if isDecDigit c then c.toNat - 48
  else if 97 ≤ c.toNat then c.toNat - 87 else c.toNat - 55

/-- The longest prefix of characters satisfying `p`, and what follows it. -/
def spanChars (p : Char → Bool) : List Char → List Char × List Char
  | [] => ([], [])
  | c :: cs => if p c then ((spanChars p cs).1.cons c, (spanChars p cs).2) else ([], c :: cs)

/-- Removes leading white space. -/
def trimStart : List Char → List Char
  | [] => []
  | c :: cs => if isStrWhiteSpaceChar c then trimStart cs else c :: cs

/-- Removes trailing white space. -/
def trimEnd (cs : List Char) : List Char := (trimStart cs.reverse).reverse

/-- The mathematical value of an unsigned decimal literal: either `Infinity`
or `mant * 10 ^ exp`. -/
inductive DecimalMV where
  | infinity
  | finite (mant : ℕ) (exp : ℤ)
  deriving DecidableEq, Repr

/-- An optional `ExponentPart` at the head of `cs`: its value and the rest.
Without a complete exponent part nothing is consumed. -/
def scanExponent (cs : List Char) : ℤ × List Char :=
  match cs with
  | [] => (0, cs)
  | c :: r =>
    if c = 'e' ∨ c = 'E' then
      let sr : Bool × List Char :=
        match r with
        | '+' :: t => (false, t)
        | '-' :: t => (true, t)
        | _ => (false, r)
      let ds := spanChars isDecDigit sr.2
      if ds.1 = [] then (0, cs)
      else ((if sr.1 then -(decimalValue ds.1 : ℤ) else (decimalValue ds.1 : ℤ)), ds.2)
    else (0, cs)

/-- The longest prefix of `cs` that is a `StrUnsignedDecimalLiteral`
(`Infinity`, `digits . digits? exponent?`, `. digits exponent?` or
`digits exponent?`): its mathematical value and what follows it; `none` when no
prefix is such a literal. -/
def scanUnsignedDecimal (cs : List Char) : Option (DecimalMV × List Char) :=
  if "Infinity".toList.isPrefixOf cs then some (.infinity, cs.drop 8)
  else
    let ip := spanChars isDecDigit cs
    let fp : List Char × List Char :=
      match ip.2 with
      | '.' :: r =>
        let f := spanChars isDecDigit r
        if ip.1 = [] ∧ f.1 = [] then ([], ip.2) else f
      | _ => ([], ip.2)
    if ip.1 = [] ∧ fp.1 = [] then none
    else
      let ex := scanExponent fp.2
      some (.finite (decimalValue (ip.1 ++ fp.1)) (ex.1 - (fp.1.length : ℤ)), ex.2)

/-- Splits an optional leading sign off: whether it is `-`, and the rest. -/
def scanSign : List Char → Bool × List Char
  | '+' :: t => (false, t)
  | '-' :: t => (true, t)
  | cs => (false, cs)

/-- The Number of a signed decimal mathematical value. -/
def DecimalMV.toNumber (neg : Bool) : DecimalMV → JSNumber
  | .infinity => .inf neg
  | .finite m e => roundDecimal neg m e

/-- ECMAScript `parseFloat` on a string: the Number of the longest prefix of
the left-trimmed input that is a `StrDecimalLiteral`, `NaN` if there is none. -/
def parseFloat (s : String) : JSNumber :=
  let sr := scanSign (trimStart s.toList)
  match scanUnsignedDecimal sr.2 with
  | none => .nan
  | some (mv, _) => mv.toNumber sr.1

/-- ECMAScript `parseInt` on a string with no radix argument: optional sign,
optional `0x`/`0X` prefix selecting radix 16, then the longest run of digits;
`NaN` when that run is empty. -/
def parseInt (s : String) : JSNumber :=
  let sr := scanSign (trimStart s.toList)
  let hex : Bool :=
    match sr.2 with
    | '0' :: 'x' :: _ => true
    | '0' :: 'X' :: _ => true
    | _ => false
  let z : List Char :=
    if hex then (spanChars isHexDigit (sr.2.drop 2)).1 else (spanChars isDecDigit sr.2).1
  if z = [] then .nan
  else roundToDouble sr.1 (if hex then radixValue 16 hexVal z else decimalValue z) 1

/-- A `NonDecimalIntegerLiteral` (`0b`, `0o` or `0x` followed by at least one
digit of that radix, and nothing else): its value. -/
def nonDecimalLiteral (cs : List Char) : Option ℕ :=
  let lit (r : ℕ) (p : Char → Bool) (val : Char → ℕ) (ds : List Char) : Option ℕ :=
    if ds ≠ [] ∧ ds.all p then some (radixValue r val ds) else none
  match cs with
  | '0' :: 'x' :: ds => lit 16 isHexDigit hexVal ds
  | '0' :: 'X' :: ds => lit 16 isHexDigit hexVal ds
  | '0' :: 'o' :: ds => lit 8 (fun c => 48 ≤ c.toNat && c.toNat ≤ 55) digitVal ds
  | '0' :: 'O' :: ds => lit 8 (fun c => 48 ≤ c.toNat && c.toNat ≤ 55) digitVal ds
  | '0' :: 'b' :: ds => lit 2 (fun c => 48 ≤ c.toNat && c.toNat ≤ 49) digitVal ds
  | '0' :: 'B' :: ds => lit 2 (fun c => 48 ≤ c.toNat && c.toNat ≤ 49) digitVal ds
  | _ => none

/-- ECMAScript `StringToNumber` (what `Number(s)` and `isNaN(s)` apply to a
string): white space is trimmed on both sides, the empty string is `+0`, and
the rest must be, as a whole, a non-decimal integer literal or a
`StrDecimalLiteral`; anything else is `NaN`. -/
def stringToNumber (s : String) : JSNumber :=
  let t := trimEnd (trimStart s.toList)
  if t = [] then JSNumber.zero
  else
    match nonDecimalLiteral t with
    | some v => roundToDouble false v 1
    | none =>
      let sr := scanSign t
      match scanUnsignedDecimal sr.2 with
      | some (mv, []) => mv.toNumber sr.1
      | _ => .nan

/-! ## Numbers to strings: `Number::toString` and `toFixed(2)` -/

/-- Numerator and denominator of `(a / b) * 10 ^ j`. -/
def scaleTen (a b : ℕ) (j : ℤ) : ℕ × ℕ :=
  if 0 ≤ j then (a * 10 ^ j.toNat, b) else (a, b * 10 ^ (-j).toNat)

/-- The integer `n` with `10 ^ (n - 1) ≤ a / b < 10 ^ n`, for `a, b > 0`. -/
def decimalExponent (a b : ℕ) : ℤ :=
  if b ≤ a then ((natDigits (a / b)).length : ℤ)
  else
    let d := (natDigits (b / a)).length
    if b ≤ a * 10 ^ (d - 1) then 2 - (d : ℤ) else 1 - (d : ℤ)

/-- Whether the `k`-digit decimal `c.1 * 10 ^ (c.2 - k)` rounds to the Number
nearest to `a / b`. -/
def decimalRoundsTo (a b k : ℕ) (c : ℕ × ℤ) : Bool :=
  (roundDecimal false c.1 (c.2 - (k : ℤ))).equal (roundToDouble false a b)

/-- The `k`-digit decimal above `lo * 10 ^ (n0 - k)`: its digits and its
exponent, which is one more when the digits carry into `10 ^ k`. -/
def nextDecimal (lo : ℕ) (n0 : ℤ) (k : ℕ) : ℕ × ℤ :=
  if lo + 1 = 10 ^ k then (10 ^ (k - 1), n0 + 1) else (lo + 1, n0)

/-- The `k`-digit decimal `s * 10 ^ (n - k)` closest to the Number `a / b`
among those that round to it, if there is one: the candidates are the two
`k`-digit decimals around `a / b`; of two that both round to it the closer
wins, the even `s` on a tie.  `n0` is `decimalExponent a b`. -/
def digitsAt (a b : ℕ) (n0 : ℤ) (k : ℕ) : Option (ℕ × ℤ) :=
  let pq := scaleTen a b ((k : ℤ) - n0)
  let r := pq.1 % pq.2
  let lo : ℕ × ℤ := (pq.1 / pq.2, n0)
  let hi : ℕ × ℤ := nextDecimal (pq.1 / pq.2) n0 k
  let okLo := decimalRoundsTo a b k lo
  let okHi := r != 0 && decimalRoundsTo a b k hi
  let preferLo : Bool :=
    decide (2 * r < pq.2) || (decide (2 * r = pq.2) && decide (pq.1 / pq.2 % 2 = 0))
  if okLo && (!okHi || preferLo) then some lo
  else if okHi then some hi
  else none

/-- Searches `k = k0, k0 + 1, ...` for the first `k` with a `k`-digit decimal
that rounds to `a / b`; returns `(s, k, n)`. -/
def shortestDigitsFuel (a b : ℕ) (n0 : ℤ) : ℕ → ℕ → ℕ × ℕ × ℤ
  | 0, k => ((scaleTen a b ((k : ℤ) - n0)).1 / (scaleTen a b ((k : ℤ) - n0)).2, k, n0)
  | fuel + 1, k =>
    match digitsAt a b n0 k with
    | some (s, n) => (s, k, n)
    | none => shortestDigitsFuel a b n0 fuel (k + 1)

/-- The integers `s, k, n` of `Number::toString`: `k` is as small as possible
such that `s * 10 ^ (n - k)` rounds to the Number `a / b`, with
`10 ^ (k - 1) ≤ s < 10 ^ k`.  Seventeen digits always suffice for a binary64
value. -/
def shortestDigits (a b : ℕ) : ℕ × ℕ × ℤ :=
  shortestDigitsFuel a b (decimalExponent a b) 17 1

/-- ECMAScript `Number::toString` in radix 10. -/
def numberToString : JSNumber → String
  | .nan => "NaN"
  | .inf false => "Infinity"
  | .inf true => "-Infinity"
  | .fin neg a b =>
    if a = 0 then "0"
    else
      let skn := shortestDigits a b
      let ds := natDigits skn.1
      let k : ℤ := (skn.2.1 : ℤ)
      let n : ℤ := skn.2.2
      let es : List Char := (if n - 1 < 0 then '-' else '+') :: natDigits (n - 1).natAbs
      let body : List Char :=
        if k ≤ n ∧ n ≤ 21 then ds ++ List.replicate (n - k).toNat '0'
        else if 0 < n ∧ n ≤ 21 then ds.take n.toNat ++ '.' :: ds.drop n.toNat
        else if -6 < n ∧ n ≤ 0 then '0' :: '.' :: (List.replicate (-n).toNat '0' ++ ds)
        else if skn.2.1 = 1 then ds ++ 'e' :: es
        else ds.take 1 ++ '.' :: (ds.drop 1 ++ 'e' :: es)
      String.mk ((if neg then ['-'] else []) ++ body)

/-- The integer `n` for which `n / 100 - a / b` is as close to zero as
possible, the larger one if there are two (`b > 0`). -/
def nearestHundredth (a b : ℕ) : ℕ := (200 * a + b) / (2 * b)

/-- The decimal representation of `n` hundredths: the digits of `n`, padded
with zeroes on the left to at least three, with a point before the last two. -/
def hundredthsDigits (n : ℕ) : List Char :=
  let m0 := natDigits n
  let m := if m0.length ≤ 2 then List.replicate (3 - m0.length) '0' ++ m0 else m0
  m.take (m.length - 2) ++ '.' :: m.drop (m.length - 2)

/-- ECMAScript `Number.prototype.toFixed` with `fractionDigits = 2`. -/
def toFixed2 : JSNumber → String
  | .fin neg a b =>
    let sign : List Char := if neg ∧ a ≠ 0 then ['-'] else []
    if 10 ^ 21 * b ≤ a then String.mk (sign ++ (numberToString (.fin false a b)).toList)
    else String.mk (sign ++ hundredthsDigits (nearestHundredth a b))
  | x => numberToString x

/-! ## Data model -/

/-- The JSON scalars a product's `id` and `cost` arrive as: a Number or a string. -/
inductive JSValue where
  | num (x : JSNumber)
  | str (s : String)
  deriving DecidableEq, Repr

/-- ECMAScript `ToString` (also what `toString()` returns and what React
writes for an attribute value or a text child). -/
def JSValue.toStr : JSValue → String
  | .num x => numberToString x
  | .str s => s

/-- ECMAScript strict equality `===`. -/
def JSValue.strictEq : JSValue → JSValue → Bool
  | .num x, .num y => x.equal y
  | .str s, .str t => s == t
  | _, _ => false

/-- A catalogue entry `{ id, name, cost }` as delivered by `GET /api/products/`. -/
structure Product where
  id : JSValue
  name : String
  cost : JSValue
  deriving DecidableEq, Repr

/-- The `formData` object: the six draft fields, all strings, and `extra` for
any other key a computed property `[name]: value` may add. -/
structure FormData where
  customerName : String
  customerId : String
  quantity : String
  product : String
  productCost : String
  userEmail : String
  extra : List (String × String)
  deriving DecidableEq, Repr

/-- The draft `useState` starts with and `handleSubmit` resets to. -/
def emptyFormData : FormData :=
  { customerName := "", customerId := "", quantity := "", product := "",
    productCost := "", userEmail := "", extra := [] }

/-- Sets key `name` in a list of further properties: overwritten in place if
present, appended otherwise. -/
def setExtra : List (String × String) → String → String → List (String × String)
  | [], name, value => [(name, value)]
  | (k, v) :: rest, name, value =>
    if k = name then (k, value) :: rest else (k, v) :: setExtra rest name value

/-- The object `{ ...prev, [name]: value }`. -/
def FormData.set (prev : FormData) (name value : String) : FormData :=
  if name = "customerName" then { prev with customerName := value }
  else if name = "customerId" then { prev with customerId := value }
  else if name = "quantity" then { prev with quantity := value }
  else if name = "product" then { prev with product := value }
  else if name = "productCost" then { prev with productCost := value }
  else if name = "userEmail" then { prev with userEmail := value }
  else { prev with extra := setExtra prev.extra name value }

/-- Reads key `name` in a list of further properties. -/
def getExtra : List (String × String) → String → Option String
  | [], _ => none
  | (k, v) :: rest, name => if k = name then some v else getExtra rest name

/-- The property `formData[name]`, `none` when the object has no such key. -/
def FormData.get (d : FormData) (name : String) : Option String :=
  if name = "customerName" then some d.customerName
  else if name = "customerId" then some d.customerId
  else if name = "quantity" then some d.quantity
  else if name = "product" then some d.product
  else if name = "productCost" then some d.productCost
  else if name = "userEmail" then some d.userEmail
  else getExtra d.extra name

/-- The state of the `OrderForm` component (its six `useState` cells). -/
structure State where
  formData : FormData
  isSubmitting : Bool
  submitStatus : Option String
  products : Option (List Product)
  productsLoading : Bool
  productsError : Option String
  deriving DecidableEq, Repr

/-- The state on mount. -/
def initialState : State :=
  { formData := emptyFormData, isSubmitting := false, submitStatus := none,
    products := none, productsLoading := true, productsError := none }

/-- ECMAScript `ToBoolean` on `null` or a string: only `null` and `''` are falsy. -/
def truthy : Option String → Bool
  | none => false
  | some s => s != ""

/-! ## Product fetch -/

/-- How `axios.get` settles: fulfilled with the response data, or rejected
(network failure or a non-2xx status). -/
inductive FetchOutcome where
  | fulfilled (data : List Product)
  | rejected
  deriving DecidableEq, Repr

/-- The message `fetchProducts` stores on failure. -/
def fetchErrorMessage : String := "Failed to load products. Please try again."

/-- The part of `fetchProducts` before the `await`. -/
def fetchProductsStart (s : State) : State :=
  { s with productsLoading := true, productsError := none }

/-- The part of `fetchProducts` after the `await`: `try` or `catch`, then `finally`. -/
def fetchProductsSettle (r : FetchOutcome) (s : State) : State :=
  match r with
  | .fulfilled data => { s with products := some data, productsLoading := false }
  | .rejected =>
    { s with productsError := some fetchErrorMessage, products := some [],
             productsLoading := false }

/-- One whole run of `fetchProducts`. -/
def fetchProducts (s : State) (r : FetchOutcome) : State :=
  fetchProductsSettle r (fetchProductsStart s)

/-- The click handler `retryFetchProducts`, up to its `await`. -/
def retryFetchProducts (s : State) : State := fetchProductsStart s

/-! ## Editing the draft -/

/-- The handler `handleInputChange` for a change event with `e.target.name = name`
and `e.target.value = value`. -/
def handleInputChange (s : State) (name value : String) : State :=
  let s1 : State := { s with formData := s.formData.set name value }
  match s.products with
  | none => s1
  | some products =>
    if name = "product" ∧ 0 < products.length then
      let productId : JSValue :=
        if (stringToNumber value).isNaN then .str value else .num (stringToNumber value)
      match products.find? (fun p => p.id.strictEq productId) with
      | some selectedProduct =>
        { s1 with formData := { s1.formData with productCost := selectedProduct.cost.toStr } }
      | none => s1
    else s1

/-- The identifier `handleInputChange` looks up for an option value: the value
as a Number when it is a numeric string, the value itself otherwise
(`isNaN(value) ? value : Number(value)`). -/
def convertedValue (value : String) : JSValue :=
  if (stringToNumber value).isNaN then .str value else .num (stringToNumber value)

/-- The condition under which a change event overwrites `productCost`: the
field is `'product'` and some product of the catalogue has an id strictly equal
to the converted value (so the catalogue is loaded and non-empty). -/
def costOverwritten (s : State) (name value : String) : Prop :=
  name = "product" ∧
    ∃ products, s.products = some products ∧
      ∃ p ∈ products, p.id.strictEq (convertedValue value) = true

/-- Whether `handleInputChange` recovers the identifier `id` from the option
value `String(id)`: a Number must convert back to a Number strictly equal to
itself, a string must not be numeric (`isNaN`). -/
def idRecovered : JSValue → Bool
  | .num x =>
    !(stringToNumber (numberToString x)).isNaN && x.equal (stringToNumber (numberToString x))
  | .str t => (stringToNumber t).isNaN

/-- A loaded component showing `products`, with draft `formData`. -/
def loadedState (products : List Product) (formData : FormData) : State :=
  { initialState with products := some products, productsLoading := false, formData := formData }

/-- A product whose identifier is the numeric string `'1001'`. -/
def penWithStringId : Product := ⟨.str "1001", "Pen", .str "12.50"⟩

/-- Two catalogue entries sharing the identifier `1`. -/
def penAndInk : List Product :=
  [⟨.num (.fin false 1 1), "Pen", .str "5.00"⟩, ⟨.num (.fin false 1 1), "Ink", .str "7.00"⟩]

/-- A catalogue with distinct integer identifiers. -/
def smallCatalogue : List Product :=
  [⟨.num (.fin false 1 1), "Pen", .str "12.50"⟩, ⟨.num (.fin false 2 1), "Ink", .num (.fin false 15 2)⟩]

/-- The function `calculateTotal`. -/
def calculateTotal (formData : FormData) : String :=
  let qty := (parseFloat formData.quantity).orZero
  let cost := (parseFloat formData.productCost).orZero
  toFixed2 (qty.mul cost)

/-- The total as the specification words it: the exact product of the two
decimal numerals, rounded to the nearest hundredth (a tie goes up) and written
with two fractional digits; `none` when a field is not an unsigned decimal
numeral. -/
def specTotal (formData : FormData) : Option String :=
  match scanUnsignedDecimal formData.quantity.toList,
      scanUnsignedDecimal formData.productCost.toList with
  | some (.finite m1 e1, []), some (.finite m2 e2, []) =>
    let pq := scaleTen (m1 * m2) 1 (e1 + e2)
    some (String.mk (hundredthsDigits (nearestHundredth pq.1 pq.2)))
  | _, _ => none

/-- A complete draft with the given `product`, `quantity` and `productCost`. -/
def orderDraft (product quantity productCost : String) : FormData :=
  { customerName := "Ann", customerId := "C-7", quantity := quantity, product := product,
    productCost := productCost, userEmail := "ann@example.org", extra := [] }

/-- A draft with the given `quantity` and `productCost` and nothing else. -/
def draftOf (quantity productCost : String) : FormData :=
  { emptyFormData with quantity := quantity, productCost := productCost }

/-! ## Submitting -/

/-- The object `orderData` posted to `/api/orders/`. -/
structure OrderData where
  customer_name : String
  customer_id : String
  product : JSNumber
  quantity : JSNumber
  product_cost : JSNumber
  user_email : String
  status : String
  deriving DecidableEq, Repr

/-- The payload `handleSubmit` builds from the draft. -/
def orderData (formData : FormData) : OrderData :=
  { customer_name := formData.customerName
    customer_id := formData.customerId
    product := parseInt formData.product
    quantity := parseInt formData.quantity
    product_cost := parseFloat formData.productCost
    user_email := formData.userEmail
    status := "Order Placed" }

/-- How the `try` block of `handleSubmit` ends: the POST is fulfilled, or an
error is caught that carries a response, carries only a request, or neither. -/
inductive PostOutcome where
  | fulfilled
  | errorResponse
  | errorRequest
  | errorOther
  deriving DecidableEq, Repr

/-- The part of `handleSubmit` before the `await`. -/
def handleSubmitStart (s : State) : State :=
  { s with isSubmitting := true, submitStatus := none }

/-- The part of `handleSubmit` after the `await`: the rest of `try`, or
`catch`, then `finally`. -/
def handleSubmitSettle (o : PostOutcome) (s : State) : State :=
  let s1 : State :=
    match o with
    | .fulfilled => { s with submitStatus := some "success", formData := emptyFormData }
    | .errorResponse => { s with submitStatus := some "error" }
    | .errorRequest => { s with submitStatus := some "error" }
    | .errorOther => { s with submitStatus := some "error" }
  { s1 with isSubmitting := false }

/-- One whole run of `handleSubmit`. -/
def handleSubmit (s : State) (o : PostOutcome) : State :=
  handleSubmitSettle o (handleSubmitStart s)

/-! ## The rendered view -/

/-- The `disabled` attribute of the submit button. -/
def submitDisabled (s : State) : Bool :=
  s.isSubmitting || s.productsLoading || truthy s.productsError

/-- The `disabled` attribute of the product `select`. -/
def selectDisabled (s : State) : Bool :=
  s.productsLoading || truthy s.productsError

/-- Whether the retry button is rendered. -/
def retryVisible (s : State) : Bool := truthy s.productsError

/-- An `option` element: its `value` attribute and its text. -/
structure OptionElem where
  value : String
  text : String
  deriving DecidableEq, Repr

/-- The `option` elements rendered inside the product `select`. -/
def productOptions (s : State) : List OptionElem :=
  if s.productsLoading then [⟨"", "Loading products..."⟩]
  else if truthy s.productsError then [⟨"", "Failed to load products"⟩]
  else
    match s.products with
    | some (p :: ps) =>
      ⟨"", "Select a product"⟩ ::
        (p :: ps).map (fun product =>
          ⟨product.id.toStr, product.name ++ " - $" ++ product.cost.toStr⟩)
    | _ => [⟨"", "No products available"⟩]

/-- The text of the total-cost block, rendered only when `quantity` and
`productCost` are both non-empty. -/
def totalBlock (s : State) : Option String :=
  if s.formData.quantity ≠ "" ∧ s.formData.productCost ≠ "" then
    some ("$" ++ calculateTotal s.formData)
  else none

/-- Whether the success banner is rendered. -/
def successBanner (s : State) : Bool := s.submitStatus == some "success"

/-- Whether the error banner is rendered. -/
def errorBanner (s : State) : Bool := s.submitStatus == some "error"

/-- The three phases of the product fetch. -/
inductive FetchPhase where
  | loading
  | loaded
  | error
  deriving DecidableEq, Repr

/-- The phase the view distinguishes, in the order its conditionals test it:
`productsLoading`, then `productsError`, else loaded. -/
def fetchPhase (s : State) : FetchPhase :=
  if s.productsLoading then .loading
  else if truthy s.productsError then .error
  else .loaded

/-! ## The component as a transition system -/

/-- What can happen to a mounted component. -/
inductive Event where
  | change (name value : String)
  | submit
  | postSettled (o : PostOutcome)
  | retry
  | fetchSettled (r : FetchOutcome)
  deriving DecidableEq, Repr

/-- The state after an event. -/
def step (s : State) : Event → State
  | .change name value => handleInputChange s name value
  | .submit => handleSubmitStart s
  | .postSettled o => handleSubmitSettle o s
  | .retry => retryFetchProducts s
  | .fetchSettled r => fetchProductsSettle r s

/-- The state after a sequence of events, starting from the mounted component
(whose effect has started the first fetch). -/
def run (es : List Event) : State :=
  es.foldl step (fetchProductsStart initialState)

/-- The states a mounted component can be in. -/
def Reachable (s : State) : Prop := ∃ es : List Event, run es = s

/-- The only error message ever stored is the non-empty `fetchErrorMessage`. -/
def ErrorWellFormed (s : State) : Prop :=
  s.productsError = none ∨ s.productsError = some fetchErrorMessage

/-! ## Lemmas on the Number model -/

theorem log2Fuel_spec : ∀ (fuel n : ℕ), n ≤ fuel → 0 < n →
    2 ^ log2Fuel fuel n ≤ n ∧ n < 2 ^ (log2Fuel fuel n + 1) := by
  intro fuel
  induction fuel with
  | zero => intro n h1 h2; omega
  | succ f ih =>
    intro n h1 h2
    unfold log2Fuel
    split
    · constructor <;> simp <;> omega
    · have h3 : n / 2 ≤ f := by omega
      have h4 : 0 < n / 2 := by omega
      obtain ⟨ha, hb⟩ := ih (n / 2) h3 h4
      constructor
      · rw [pow_succ]; omega
      · rw [pow_succ]; omega

theorem log2_spec (n : ℕ) (h : 0 < n) : 2 ^ log2 n ≤ n ∧ n < 2 ^ (log2 n + 1) :=
  log2Fuel_spec n n le_rfl h

theorem log2_lt_of_lt_pow (n k : ℕ) (h : 0 < n) (hk : n < 2 ^ k) : log2 n < k := by
  by_contra hc
  have h1 := (log2_spec n h).1
  have h2 : 2 ^ k ≤ 2 ^ log2 n := Nat.pow_le_pow_right (by norm_num) (by omega)
  omega

theorem log2_one : log2 1 = 0 := by decide

theorem roundHalfEven_one (p : ℕ) : roundHalfEven p 1 = p := by
  simp [roundHalfEven, Nat.mod_one]

set_option exponentiation.threshold 2000 in
theorem roundToDouble_int (neg : Bool) (n : ℕ) (h : n < 2 ^ 53) :
    roundToDouble neg n 1 = .fin neg n 1 := by
  unfold roundToDouble
  by_cases h0 : n = 0
  · simp [h0]
  · have hpos : 0 < n := Nat.pos_of_ne_zero h0
    have hl := log2_lt_of_lt_pow n 53 hpos h
    have hs := (log2_spec n hpos).1
    have hfl : floorLog2 n 1 = (log2 n : ℤ) := by
      simp [floorLog2, log2_one, geTwoPow, hs]
    simp only [h0, if_false, hfl]
    have hu : max ((log2 n : ℤ) - 52) (-1074) = (log2 n : ℤ) - 52 := by
      apply max_eq_left; omega
    rw [hu]
    by_cases h52 : log2 n = 52
    · have hbig : ¬ 2 ^ 1024 ≤ n := by
        have : (2 : ℕ) ^ 53 ≤ 2 ^ 1024 := Nat.pow_le_pow_right (by norm_num) (by norm_num)
        omega
      simp [h52, scaleTwo, roundHalfEven_one, mkFin, hbig, -Nat.reducePow]
    · have hneg : ¬ (0 : ℤ) ≤ (log2 n : ℤ) - 52 := by omega
      simp only [scaleTwo, hneg, if_false, roundHalfEven_one, false_and, mkFin]
      have hg : Nat.gcd (n * 2 ^ (-((log2 n : ℤ) - 52)).toNat) (2 ^ (-((log2 n : ℤ) - 52)).toNat)
          = 2 ^ (-((log2 n : ℤ) - 52)).toNat := Nat.gcd_mul_left_left _ _
      simp only [hg]
      have hp : 0 < 2 ^ (-((log2 n : ℤ) - 52)).toNat := Nat.pos_pow_of_pos _ (by norm_num)
      rw [Nat.mul_div_cancel _ hp, Nat.div_self hp]


theorem digitsFuel_eq : ∀ (f g n : ℕ), n < f → n < g → digitsFuel f n = digitsFuel g n := by
  intro f
  induction f with
  | zero => intro g n h; omega
  | succ f ih =>
    intro g n hf hg
    cases g with
    | zero => omega
    | succ g =>
      unfold digitsFuel
      split
      · rfl
      · rw [ih g (n / 10) (by omega) (by omega)]

theorem natDigits_lt_ten (n : ℕ) (h : n < 10) : natDigits n = [digitChar n] := by
  simp [natDigits, digitsFuel, h]

theorem natDigits_ge_ten (n : ℕ) (h : 10 ≤ n) :
    natDigits n = natDigits (n / 10) ++ [digitChar (n % 10)] := by
  have h1 : ¬ n < 10 := by omega
  have h2 : natDigits n =
      (if n < 10 then [digitChar n] else digitsFuel n (n / 10) ++ [digitChar (n % 10)]) := rfl
  rw [h2, if_neg h1, digitsFuel_eq n (n / 10 + 1) (n / 10) (by omega) (by omega)]
  rfl

theorem isDecDigit_digitChar (d : ℕ) (h : d < 10) : isDecDigit (digitChar d) = true := by
  interval_cases d <;> decide

theorem digitVal_digitChar (d : ℕ) (h : d < 10) : digitVal (digitChar d) = d := by
  interval_cases d <;> decide

theorem natDigits_all_digit (n : ℕ) : ∀ c ∈ natDigits n, isDecDigit c = true := by
  induction n using Nat.strong_induction_on with
  | _ n ih =>
    by_cases h : n < 10
    · rw [natDigits_lt_ten n h]
      intro c hc
      simp only [List.mem_singleton] at hc
      rw [hc]; exact isDecDigit_digitChar n h
    · rw [natDigits_ge_ten n (by omega)]
      intro c hc
      rcases List.mem_append.mp hc with hc | hc
      · exact ih (n / 10) (by omega) c hc
      · simp only [List.mem_singleton] at hc
        rw [hc]; exact isDecDigit_digitChar _ (Nat.mod_lt _ (by norm_num))

theorem natDigits_ne_nil (n : ℕ) : natDigits n ≠ [] := by
  by_cases h : n < 10
  · rw [natDigits_lt_ten n h]; simp
  · rw [natDigits_ge_ten n (by omega)]; simp

theorem radixValue_append (r : ℕ) (val : Char → ℕ) (cs : List Char) (c : Char) :
    radixValue r val (cs ++ [c]) = r * radixValue r val cs + val c := by
  simp [radixValue, List.foldl_append]

theorem decimalValue_natDigits (n : ℕ) : decimalValue (natDigits n) = n := by
  induction n using Nat.strong_induction_on with
  | _ n ih =>
    by_cases h : n < 10
    · rw [natDigits_lt_ten n h]
      simp [decimalValue, radixValue, digitVal_digitChar n h]
    · rw [natDigits_ge_ten n (by omega)]
      unfold decimalValue at ih ⊢
      rw [radixValue_append, ih (n / 10) (by omega),
        digitVal_digitChar _ (Nat.mod_lt _ (by norm_num))]
      omega

theorem spanChars_append (p : Char → Bool) (ds rest : List Char)
    (hds : ∀ c ∈ ds, p c = true) (hrest : ∀ c ∈ rest.head?, p c = false) :
    spanChars p (ds ++ rest) = (ds, rest) := by
  induction ds with
  | nil =>
    cases rest with
    | nil => rfl
    | cons c cs =>
      have : p c = false := hrest c (by simp)
      simp [spanChars, this]
  | cons d ds ih =>
    have hd : p d = true := hds d (by simp)
    have := ih (fun c hc => hds c (by simp [hc]))
    simp [spanChars, hd, this]

theorem spanChars_all (p : Char → Bool) (ds : List Char) (hds : ∀ c ∈ ds, p c = true) :
    spanChars p ds = (ds, []) := by
  have := spanChars_append p ds [] hds (by simp)
  simpa using this

theorem trimStart_digit (c : Char) (cs : List Char) (h : isDecDigit c = true) :
    trimStart (c :: cs) = c :: cs := by
  have : isStrWhiteSpaceChar c = false := by
    simp only [isDecDigit, Bool.and_eq_true, decide_eq_true_eq] at h
    simp [isStrWhiteSpaceChar]
    omega
  simp [trimStart, this]

theorem scanSign_digit (c : Char) (cs : List Char) (h : isDecDigit c = true) :
    scanSign (c :: cs) = (false, c :: cs) := by
  unfold scanSign
  split
  · rename_i heq; injection heq with h1 h2; subst h1; exact absurd h (by decide)
  · rename_i heq; injection heq with h1 h2; subst h1; exact absurd h (by decide)
  · rfl

theorem parseInt_natDigits (n : ℕ) (h : n < 2 ^ 53) :
    parseInt (String.mk (natDigits n)) = .fin false n 1 := by
  have hall := natDigits_all_digit n
  have hne := natDigits_ne_nil n
  obtain ⟨c, cs, hcs⟩ : ∃ c cs, natDigits n = c :: cs := by
    cases hd : natDigits n with
    | nil => exact absurd hd hne
    | cons c cs => exact ⟨c, cs, rfl⟩
  have hc : isDecDigit c = true := hall c (by simp [hcs])
  have hhex : (match c :: cs with
      | '0' :: 'x' :: _ => true
      | '0' :: 'X' :: _ => true
      | _ => false) = false := by
    split
    · rename_i heq
      injection heq with h1 h2
      have : isDecDigit 'x' = true := hall 'x' (by rw [hcs, h2]; simp)
      exact absurd this (by decide)
    · rename_i heq
      injection heq with h1 h2
      have : isDecDigit 'X' = true := hall 'X' (by rw [hcs, h2]; simp)
      exact absurd this (by decide)
    · rfl
  unfold parseInt
  simp only [String.toList, hcs, trimStart_digit c cs hc, scanSign_digit c cs hc, hhex]
  rw [← hcs, spanChars_all isDecDigit _ hall]
  simp [hne, decimalValue_natDigits, roundToDouble_int false n h]


theorem hundredthsDigits_eq (n : ℕ) :
    hundredthsDigits n =
      natDigits (n / 100) ++ ['.', digitChar (n % 100 / 10), digitChar (n % 10)] := by
  unfold hundredthsDigits
  by_cases h1 : n < 10
  · have e0 : n / 100 = 0 := by omega
    have e1 : n % 100 / 10 = 0 := by omega
    have e2 : n % 10 = n := by omega
    rw [natDigits_lt_ten n h1, e0, e1, e2, natDigits_lt_ten 0 (by norm_num)]
    rfl
  · by_cases h2 : n < 100
    · have e0 : n / 100 = 0 := by omega
      have e1 : n % 100 / 10 = n / 10 := by omega
      rw [natDigits_ge_ten n (by omega), natDigits_lt_ten (n / 10) (by omega), e0, e1,
        natDigits_lt_ten 0 (by norm_num)]
      rfl
    · have e0 : n / 10 / 10 = n / 100 := by omega
      have e1 : n / 10 % 10 = n % 100 / 10 := by omega
      have hd : natDigits n =
          natDigits (n / 100) ++ [digitChar (n % 100 / 10), digitChar (n % 10)] := by
        rw [natDigits_ge_ten n (by omega), natDigits_ge_ten (n / 10) (by omega), e0, e1]
        simp
      have hlen : ¬ (natDigits n).length ≤ 2 := by
        have := List.length_pos.mpr (natDigits_ne_nil (n / 100))
        rw [hd, List.length_append]
        simp only [List.length_cons, List.length_nil]
        omega
      simp only [hlen, if_false]
      rw [hd]
      simp

theorem nearestHundredth_close (a b : ℕ) (hb : 0 < b) :
    (nearestHundredth a b : ℚ) / 100 - 1 / 200 ≤ (a : ℚ) / (b : ℚ) ∧
      (a : ℚ) / (b : ℚ) < (nearestHundredth a b : ℚ) / 100 + 1 / 200 := by
  have hlo : 2 * b * nearestHundredth a b ≤ 200 * a + b := Nat.mul_div_le _ _
  have hhi : 200 * a + b < 2 * b * (nearestHundredth a b + 1) := by
    have := Nat.lt_mul_div_succ (200 * a + b) (show 0 < 2 * b by omega)
    simpa [nearestHundredth, Nat.succ_eq_add_one] using this
  have hbq : (0 : ℚ) < (b : ℚ) := by exact_mod_cast hb
  have hlo' : (2 : ℚ) * b * (nearestHundredth a b : ℚ) ≤ 200 * a + b := by exact_mod_cast hlo
  have hhi' : (200 : ℚ) * a + b < 2 * b * ((nearestHundredth a b : ℚ) + 1) := by
    exact_mod_cast hhi
  have hx : (a : ℚ) = (a : ℚ) / (b : ℚ) * (b : ℚ) := by field_simp
  rw [hx] at hlo' hhi'
  have h1 : 2 * (nearestHundredth a b : ℚ) ≤ 200 * ((a : ℚ) / (b : ℚ)) + 1 := by
    by_contra hc
    push_neg at hc
    nlinarith
  have h2 : 200 * ((a : ℚ) / (b : ℚ)) + 1 < 2 * ((nearestHundredth a b : ℚ) + 1) := by
    by_contra hc
    push_neg at hc
    nlinarith
  constructor <;> linarith

theorem mkFin_ne_nan (neg : Bool) (n : ℕ) (u : ℤ) : mkFin neg n u ≠ .nan := by
  unfold mkFin
  split <;> simp

theorem roundToDouble_ne_nan (neg : Bool) (a b : ℕ) : roundToDouble neg a b ≠ .nan := by
  unfold roundToDouble
  split
  · simp
  · simp only
    split
    · simp
    · exact mkFin_ne_nan _ _ _

theorem toNumber_ne_nan (neg : Bool) (mv : DecimalMV) : mv.toNumber neg ≠ .nan := by
  cases mv with
  | infinity => simp [DecimalMV.toNumber]
  | finite m e =>
    simp only [DecimalMV.toNumber, roundDecimal]
    split <;> exact roundToDouble_ne_nan _ _ _

theorem scan_none_of_parseFloat_nan (s : String) (h : parseFloat s = .nan) :
    scanUnsignedDecimal (scanSign (trimStart s.toList)).2 = none := by
  unfold parseFloat at h
  simp only at h
  cases hs : scanUnsignedDecimal (scanSign (trimStart s.toList)).2 with
  | none => rfl
  | some r =>
    rw [hs] at h
    exact absurd h (toNumber_ne_nan _ _)

theorem spanDigits_nil_of_scan_none (cs : List Char) (h : scanUnsignedDecimal cs = none) :
    (spanChars isDecDigit cs).1 = [] := by
  unfold scanUnsignedDecimal at h
  split at h
  · simp at h
  · simp only at h
    split at h
    · rename_i hc
      exact hc.1
    · simp at h

theorem parseInt_nan_of_parseFloat_nan (s : String) (h : parseFloat s = .nan) :
    parseInt s = .nan := by
  have h1 := spanDigits_nil_of_scan_none _ (scan_none_of_parseFloat_nan s h)
  have hhex : (match (scanSign (trimStart s.toList)).2 with
      | '0' :: 'x' :: _ => true
      | '0' :: 'X' :: _ => true
      | _ => false) = false := by
    split
    · rename_i heq
      rw [heq] at h1
      simp [spanChars, isDecDigit] at h1
    · rename_i heq
      rw [heq] at h1
      simp [spanChars, isDecDigit] at h1
    · rfl
  unfold parseInt
  simp only [hhex, h1]
  simp

theorem toFixed2_zero (neg : Bool) : toFixed2 (.fin neg 0 1) = "0.00" := by
  cases neg <;> decide

theorem zero_mul_orZero (x : JSNumber) (hx : ∀ neg, x ≠ .inf neg) :
    toFixed2 (JSNumber.zero.mul x.orZero) = "0.00" ∧
    toFixed2 (x.orZero.mul JSNumber.zero) = "0.00" := by
  cases x with
  | nan => exact ⟨by decide, by decide⟩
  | inf neg => exact absurd rfl (hx neg)
  | fin t c d =>
    by_cases hc : c = 0
    · subst hc
      have : (JSNumber.fin t 0 d).orZero = JSNumber.zero := by
        simp [JSNumber.orZero, JSNumber.truthy]
      rw [this]
      exact ⟨by decide, by decide⟩
    · have : (JSNumber.fin t c d).orZero = JSNumber.fin t c d := by
        simp [JSNumber.orZero, JSNumber.truthy, hc]
      rw [this]
      constructor
      · simp [JSNumber.zero, JSNumber.mul, roundToDouble, toFixed2_zero]
      · simp [JSNumber.zero, JSNumber.mul, roundToDouble, toFixed2_zero]

theorem roundToDouble_sign (neg : Bool) (a b n d : ℕ)
    (h : roundToDouble false a b = .fin false n d) : roundToDouble neg a b = .fin neg n d := by
  unfold roundToDouble at h ⊢
  by_cases ha : a = 0
  · simp only [ha, if_true] at h ⊢
    injection h with h1 h2 h3
    rw [h2, h3]
  · simp only [ha, if_false] at h ⊢
    split at h
    · exact absurd h (by simp)
    · rename_i hov
      rw [if_neg hov]
      unfold mkFin at h ⊢
      split at h
      · rename_i hu
        rw [if_pos hu]
        injection h with h1 h2 h3
        rw [h2, h3]
      · rename_i hu
        rw [if_neg hu]
        simp only at h ⊢
        injection h with h1 h2 h3
        rw [h2, h3]

theorem equal_self_fin (neg : Bool) (a b : ℕ) : (JSNumber.fin neg a b).equal (.fin neg a b) = true := by
  simp [JSNumber.equal]

theorem eq_of_equal_fin (x : JSNumber) (n d : ℕ) (hn : n ≠ 0)
    (h : x.equal (.fin false n d) = true) : x = .fin false n d := by
  cases x with
  | nan => simp [JSNumber.equal] at h
  | inf s => simp [JSNumber.equal] at h
  | fin s a b =>
    simp only [JSNumber.equal, Bool.or_eq_true, Bool.and_eq_true, beq_iff_eq] at h
    rcases h with ⟨⟨h1, h2⟩, h3⟩ | ⟨_, h2⟩
    · rw [h1, h2, h3]
    · exact absurd h2 hn

theorem nextDecimal_exponent (lo : ℕ) (n0 : ℤ) (k : ℕ) :
    (nextDecimal lo n0 k).2 = n0 ∨ (nextDecimal lo n0 k).2 = n0 + 1 := by
  unfold nextDecimal
  split
  · exact Or.inr rfl
  · exact Or.inl rfl

theorem digitsAt_valid (a b : ℕ) (n0 : ℤ) (k : ℕ) (c : ℕ × ℤ)
    (h : digitsAt a b n0 k = some c) :
    decimalRoundsTo a b k c = true ∧ (c.2 = n0 ∨ c.2 = n0 + 1) := by
  unfold digitsAt at h
  simp only at h
  split at h
  · rename_i hlo
    simp only [Bool.and_eq_true] at hlo
    injection h with h
    rw [← h]
    exact ⟨hlo.1, Or.inl rfl⟩
  · split at h
    · rename_i hhi
      simp only [Bool.and_eq_true] at hhi
      injection h with h
      rw [← h]
      exact ⟨hhi.2, nextDecimal_exponent _ _ _⟩
    · exact absurd h (by simp)

theorem shortestDigitsFuel_spec (a b : ℕ) (n0 : ℤ) :
    ∀ (fuel k0 k1 : ℕ), k0 ≤ k1 → k1 < k0 + fuel → digitsAt a b n0 k1 ≠ none →
      digitsAt a b n0 (shortestDigitsFuel a b n0 fuel k0).2.1 =
          some ((shortestDigitsFuel a b n0 fuel k0).1, (shortestDigitsFuel a b n0 fuel k0).2.2) ∧
        (shortestDigitsFuel a b n0 fuel k0).2.1 ≤ k1 := by
  intro fuel
  induction fuel with
  | zero => intro k0 k1 h1 h2; omega
  | succ fuel ih =>
    intro k0 k1 h1 h2 h3
    unfold shortestDigitsFuel
    cases hd : digitsAt a b n0 k0 with
    | some r =>
      obtain ⟨s, n⟩ := r
      simp only
      exact ⟨hd, h1⟩
    | none =>
      simp only
      have hne : k0 ≠ k1 := by
        intro e; rw [e] at hd; exact h3 hd
      exact ih (k0 + 1) k1 (by omega) (by omega) h3

theorem natDigits_length_le (j : ℕ) : ∀ n : ℕ, n < 10 ^ (j + 1) → (natDigits n).length ≤ j + 1 := by
  induction j with
  | zero =>
    intro n h
    rw [natDigits_lt_ten n (by simpa using h)]
    simp
  | succ j ih =>
    intro n h
    by_cases h10 : n < 10
    · rw [natDigits_lt_ten n h10]; simp
    · rw [natDigits_ge_ten n (by omega)]
      have : n / 10 < 10 ^ (j + 1) := by
        rw [Nat.div_lt_iff_lt_mul (by norm_num)]
        rw [pow_succ] at h
        exact h
      have := ih (n / 10) this
      simp only [List.length_append, List.length_cons, List.length_nil]
      omega

theorem decimalExponent_int (n : ℕ) (hn : 0 < n) :
    decimalExponent n 1 = ((natDigits n).length : ℤ) := by
  unfold decimalExponent
  rw [if_pos (by omega), Nat.div_one]

theorem digitsAt_int (n : ℕ) (h : n < 2 ^ 53) :
    digitsAt n 1 ((natDigits n).length : ℤ) (natDigits n).length ≠ none := by
  have hr : decimalRoundsTo n 1 (natDigits n).length (n, ((natDigits n).length : ℤ)) = true := by
    simp [decimalRoundsTo, roundDecimal, roundToDouble_int false n h, equal_self_fin]
  unfold digitsAt
  simp only [sub_self, scaleTen, le_refl, if_true, Int.toNat_zero, pow_zero, mul_one,
    Nat.div_one, Nat.mod_one, hr]
  simp

theorem shortestDigits_int (n : ℕ) (hn : 0 < n) (h : n < 2 ^ 53) :
    decimalRoundsTo n 1 (shortestDigits n 1).2.1
        ((shortestDigits n 1).1, (shortestDigits n 1).2.2) = true ∧
      ((shortestDigits n 1).2.1 : ℤ) ≤ (shortestDigits n 1).2.2 ∧
      (shortestDigits n 1).2.2 ≤ 17 := by
  have hlen1 : 1 ≤ (natDigits n).length := List.length_pos.mpr (natDigits_ne_nil n)
  have hlen2 : (natDigits n).length ≤ 16 :=
    natDigits_length_le 15 n (lt_of_lt_of_le h (by norm_num))
  have hsp := shortestDigitsFuel_spec n 1 ((natDigits n).length : ℤ) 17 1 (natDigits n).length
    hlen1 (by omega) (digitsAt_int n h)
  unfold shortestDigits
  rw [decimalExponent_int n hn]
  obtain ⟨hv, hk⟩ := hsp
  obtain ⟨hv1, hv2⟩ := digitsAt_valid _ _ _ _ _ hv
  refine ⟨hv1, ?_, ?_⟩
  · simp only at hv2
    rcases hv2 with e | e <;> rw [e] <;> omega
  · simp only at hv2
    rcases hv2 with e | e <;> rw [e] <;> omega

theorem decimalValue_append_zeros (ds : List Char) (z : ℕ) :
    decimalValue (ds ++ List.replicate z '0') = decimalValue ds * 10 ^ z := by
  induction z with
  | zero => simp
  | succ z ih =>
    unfold decimalValue at ih ⊢
    rw [List.replicate_succ', ← List.append_assoc, radixValue_append, ih, pow_succ]
    have : digitVal '0' = 0 := by decide
    rw [this]
    ring

theorem trimEnd_digits (pre ds : List Char) (hne : ds ≠ [])
    (hall : ∀ c ∈ ds, isDecDigit c = true) : trimEnd (pre ++ ds) = pre ++ ds := by
  unfold trimEnd
  cases hr : ds.reverse with
  | nil => exact absurd (List.reverse_eq_nil_iff.mp hr) hne
  | cons d ys =>
    have hd : isDecDigit d = true := by
      apply hall
      rw [← List.mem_reverse, hr]
      simp
    rw [List.reverse_append, hr, List.cons_append, trimStart_digit d _ hd,
      ← List.cons_append, ← hr, ← List.reverse_append, List.reverse_reverse]

theorem scanUnsignedDecimal_digits (c : Char) (cs : List Char)
    (hall : ∀ x ∈ c :: cs, isDecDigit x = true) :
    scanUnsignedDecimal (c :: cs) = some (.finite (decimalValue (c :: cs)) 0, []) := by
  have hc : isDecDigit c = true := hall c (by simp)
  have hI : ('I' == c) = false := by
    rw [beq_eq_false_iff_ne]
    intro e
    rw [← e] at hc
    exact absurd hc (by decide)
  have hinf : "Infinity".toList.isPrefixOf (c :: cs) = false := by
    have : "Infinity".toList = ['I', 'n', 'f', 'i', 'n', 'i', 't', 'y'] := rfl
    rw [this]
    simp [List.isPrefixOf, hI]
  have hI2 : ¬ 'I' = c := by simpa using hI
  unfold scanUnsignedDecimal
  simp [hI2, spanChars_all isDecDigit (c :: cs) hall, scanExponent]

theorem stringToNumber_digits (neg : Bool) (ds : List Char) (hne : ds ≠ [])
    (hall : ∀ c ∈ ds, isDecDigit c = true) :
    stringToNumber (String.mk ((if neg = true then ['-'] else []) ++ ds)) =
      roundToDouble neg (decimalValue ds) 1 := by
  obtain ⟨c, cs, rfl⟩ : ∃ c cs, ds = c :: cs := by
    cases ds with
    | nil => exact absurd rfl hne
    | cons c cs => exact ⟨c, cs, rfl⟩
  have hc : isDecDigit c = true := hall c (by simp)
  have hscan := scanUnsignedDecimal_digits c cs hall
  have hround : roundDecimal neg (decimalValue (c :: cs)) 0 =
      roundToDouble neg (decimalValue (c :: cs)) 1 := by
    simp [roundDecimal]
  unfold stringToNumber
  cases neg with
  | true =>
    have ht : trimStart ('-' :: c :: cs) = '-' :: c :: cs := by
      have : isStrWhiteSpaceChar '-' = false := by decide
      simp [trimStart, this]
    have hte := trimEnd_digits ['-'] (c :: cs) hne hall
    simp only [List.singleton_append] at hte
    simp only [String.toList, if_true, List.singleton_append, ht, hte]
    simp [nonDecimalLiteral, scanSign, hscan, DecimalMV.toNumber, hround]
  | false =>
    have hte := trimEnd_digits [] (c :: cs) hne hall
    simp only [List.nil_append] at hte
    have h2c : ∀ y ys, cs = y :: ys → isDecDigit y = true :=
      fun y ys e => hall y (by simp [e])
    have hnd : nonDecimalLiteral (c :: cs) = none := by
      unfold nonDecimalLiteral
      split <;> first
        | rfl
        | (rename_i heq
           injection heq with h1 h2
           exact absurd (h2c _ _ h2) (by decide))
    simp only [String.toList, Bool.false_eq_true, if_false, List.nil_append,
      trimStart_digit c cs hc, hte]
    simp [hnd, scanSign_digit c cs hc, hscan, DecimalMV.toNumber, hround]

theorem numberToString_int (neg : Bool) (n : ℕ) (hn : 0 < n) (h : n < 2 ^ 53) :
    ∃ s z : ℕ,
      numberToString (.fin neg n 1) =
          String.mk ((if neg = true then ['-'] else []) ++
            (natDigits s ++ List.replicate z '0')) ∧
        roundToDouble false (s * 10 ^ z) 1 = .fin false n 1 := by
  obtain ⟨hv, hk, h17⟩ := shortestDigits_int n hn h
  refine ⟨(shortestDigits n 1).1,
    ((shortestDigits n 1).2.2 - ((shortestDigits n 1).2.1 : ℤ)).toNat, ?_, ?_⟩
  · unfold numberToString
    have hn0 : n ≠ 0 := by omega
    have hcond : ((shortestDigits n 1).2.1 : ℤ) ≤ (shortestDigits n 1).2.2 ∧
        (shortestDigits n 1).2.2 ≤ 21 := ⟨hk, by omega⟩
    simp only [hn0, if_false, hcond, and_self, if_true]
  · have hnn : (0 : ℤ) ≤ (shortestDigits n 1).2.2 - ((shortestDigits n 1).2.1 : ℤ) := by omega
    simp only [decimalRoundsTo, roundDecimal, hnn, if_true, roundToDouble_int false n h] at hv
    exact eq_of_equal_fin _ n 1 (by omega) hv

theorem idRecovered_int (neg : Bool) (n : ℕ) (h : n < 2 ^ 53) :
    idRecovered (.num (.fin neg n 1)) = true := by
  rcases Nat.eq_zero_or_pos n with h0 | hn
  · subst h0
    cases neg <;> decide
  · obtain ⟨s, z, hstr, hround⟩ := numberToString_int neg n hn h
    have hall : ∀ c ∈ natDigits s ++ List.replicate z '0', isDecDigit c = true := by
      intro c hc
      rcases List.mem_append.mp hc with hc | hc
      · exact natDigits_all_digit s c hc
      · rw [List.eq_of_mem_replicate hc]; decide
    have hne : natDigits s ++ List.replicate z '0' ≠ [] := by
      simp [natDigits_ne_nil s]
    have hback : stringToNumber (numberToString (.fin neg n 1)) = .fin neg n 1 := by
      rw [hstr, stringToNumber_digits neg _ hne hall, decimalValue_append_zeros,
        decimalValue_natDigits]
      exact roundToDouble_sign neg _ 1 n 1 hround
    simp [idRecovered, hback, JSNumber.isNaN, equal_self_fin]

theorem equal_of_equal_of_equal (x y z : JSNumber) (hzy : z.equal y = true)
    (hxy : x.equal y = true) : z.equal x = true := by
  cases x <;> cases y <;> cases z <;> simp_all [JSNumber.equal]
  rcases hzy with h | h <;> rcases hxy with h' | h' <;> simp_all

theorem formData_set_product (d : FormData) (v : String) :
    d.set "product" v = { d with product := v } := by
  simp [FormData.set]

/-! ## Properties of editing the draft -/

/-- C1 (as the claim states it, refuted): when the product's id is the numeric
string `'1001'`, choosing its option converts the value to the Number 1001,
which is strictly equal to no id, and the hand-edited cost `'9.99'` stays; and
when two products share the id `1`, choosing the second one's option fills in
the first one's cost. -/
theorem C1_selection_can_miss :
    penWithStringId ∈ [penWithStringId] ∧
    (handleInputChange (loadedState [penWithStringId] (draftOf "2" "9.99")) "product"
        penWithStringId.id.toStr).formData.productCost = "9.99" ∧
    penWithStringId.cost.toStr = "12.50" ∧
    (⟨.num (.fin false 1 1), "Ink", .str "7.00"⟩ : Product) ∈ penAndInk ∧
    (handleInputChange (loadedState penAndInk (draftOf "2" "9.99")) "product"
        (JSValue.num (.fin false 1 1)).toStr).formData.productCost = "5.00" := by
  decide

/-- C1 (amended): for every loaded catalogue, every product `p` in it whose id
is recovered from its option value (a Number that converts back to itself, or
a string that is not numeric) and whose cost is shared by every product with a
strictly equal id, and every prior draft, a change event on `'product'` with
the option value of `p` yields the prior draft with `product` set to that
value and `productCost` set to the string form of `p`'s cost. -/
theorem C1_selection_sets_cost (s : State) (products : List Product) (p : Product)
    (hs : s.products = some products) (hp : p ∈ products)
    (hid : idRecovered p.id = true)
    (hcost : ∀ q ∈ products, q.id.strictEq p.id = true → q.cost.toStr = p.cost.toStr) :
    (handleInputChange s "product" p.id.toStr).formData =
      { s.formData with product := p.id.toStr, productCost := p.cost.toStr } := by
  have hlen : 0 < products.length := List.length_pos_of_mem hp
  -- the identifier the handler looks for is strictly equal to exactly the ids equal to `p.id`
  have key : ∀ q : Product,
      q.id.strictEq (if (stringToNumber p.id.toStr).isNaN then JSValue.str p.id.toStr
        else JSValue.num (stringToNumber p.id.toStr)) = true → q.id.strictEq p.id = true := by
    intro q hq
    cases hpid : p.id with
    | num x =>
      rw [hpid] at hid hq
      simp only [idRecovered, Bool.and_eq_true, Bool.not_eq_true'] at hid
      simp only [JSValue.toStr, hid.1] at hq
      cases hqid : q.id with
      | num z =>
        rw [hqid] at hq
        exact equal_of_equal_of_equal x _ z hq hid.2
      | str t => rw [hqid] at hq; simp [JSValue.strictEq] at hq
    | str t =>
      rw [hpid] at hid hq
      simp only [idRecovered] at hid
      simpa [JSValue.toStr, hid] using hq
  have self : p.id.strictEq (if (stringToNumber p.id.toStr).isNaN then JSValue.str p.id.toStr
        else JSValue.num (stringToNumber p.id.toStr)) = true := by
    cases hpid : p.id with
    | num x =>
      rw [hpid] at hid
      simp only [idRecovered, Bool.and_eq_true, Bool.not_eq_true'] at hid
      simp [JSValue.toStr, hid.1, JSValue.strictEq, hid.2]
    | str t =>
      rw [hpid] at hid
      simp only [idRecovered] at hid
      simp [JSValue.toStr, hid, JSValue.strictEq]
  obtain ⟨q, hq⟩ : ∃ q, products.find? (fun r => r.id.strictEq
      (if (stringToNumber p.id.toStr).isNaN then JSValue.str p.id.toStr
        else JSValue.num (stringToNumber p.id.toStr))) = some q := by
    rw [← Option.isSome_iff_exists, List.find?_isSome]
    exact ⟨p, hp, self⟩
  have hqmem : q ∈ products := List.mem_of_find?_eq_some hq
  have hqeq := key q (@List.find?_some Product _ q products hq)
  unfold handleInputChange
  simp only [hs, hlen, and_self, if_true, hq, formData_set_product]
  rw [hcost q hqmem hqeq]

/-- Witness for C1: choosing the second product of a two-product catalogue
after the cost was edited by hand. -/
theorem C1_selection_sets_cost_witness :
    (handleInputChange (loadedState smallCatalogue (draftOf "2" "9.99")) "product"
        "2").formData =
      { draftOf "2" "9.99" with product := "2", productCost := "7.5" } :=
  C1_selection_sets_cost (loadedState smallCatalogue (draftOf "2" "9.99")) smallCatalogue
    ⟨.num (.fin false 2 1), "Ink", .num (.fin false 15 2)⟩ rfl (by decide)
    (idRecovered_int false 2 (by norm_num)) (by decide)

theorem roundToDouble_integer (neg : Bool) (v : ℕ) :
    roundToDouble neg v 1 = .inf neg ∨ ∃ m, roundToDouble neg v 1 = .fin neg m 1 := by
  unfold roundToDouble
  by_cases h0 : v = 0
  · exact Or.inr ⟨0, by simp [h0]⟩
  · simp only [h0, if_false]
    split
    · exact Or.inl rfl
    · right
      unfold mkFin
      split
      · exact ⟨_, rfl⟩
      · rename_i hu
        refine ⟨v, ?_⟩
        have hp : 0 < 2 ^ (-(max (floorLog2 v 1 - 52) (-1074))).toNat :=
          Nat.pos_pow_of_pos _ (by norm_num)
        simp only [scaleTwo, hu, if_false, roundHalfEven_one, Nat.gcd_mul_left_left,
          Nat.mul_div_cancel _ hp, Nat.div_self hp]

theorem roundToDouble_integral (neg : Bool) (v : ℕ) : integralOrNaN (roundToDouble neg v 1) := by
  rcases roundToDouble_integer neg v with h | ⟨m, h⟩
  · exact Or.inr (Or.inl ⟨neg, h⟩)
  · exact Or.inr (Or.inr ⟨neg, m, h⟩)

theorem parseInt_integer (s : String) : integralOrNaN (parseInt s) := by
  unfold parseInt
  simp only
  split_ifs <;> first
    | exact Or.inl rfl
    | exact roundToDouble_integral _ _

theorem parseInt_signed_digits (neg : Bool) (ds : List Char) (hne : ds ≠ [])
    (hall : ∀ c ∈ ds, isDecDigit c = true) :
    parseInt (String.mk ((if neg = true then ['-'] else []) ++ ds)) =
      roundToDouble neg (decimalValue ds) 1 := by
  obtain ⟨c, cs, rfl⟩ : ∃ c cs, ds = c :: cs := by
    cases ds with
    | nil => exact absurd rfl hne
    | cons c cs => exact ⟨c, cs, rfl⟩
  have hc : isDecDigit c = true := hall c (by simp)
  have h2c : ∀ y ys, cs = y :: ys → isDecDigit y = true :=
    fun y ys e => hall y (by simp [e])
  have hhex : (match c :: cs with
      | '0' :: 'x' :: _ => true
      | '0' :: 'X' :: _ => true
      | _ => false) = false := by
    split
    · rename_i heq
      injection heq with h1 h2
      exact absurd (h2c _ _ h2) (by decide)
    · rename_i heq
      injection heq with h1 h2
      exact absurd (h2c _ _ h2) (by decide)
    · rfl
  have hsign : scanSign (trimStart ((if neg = true then ['-'] else []) ++ c :: cs)) =
      (neg, c :: cs) := by
    cases neg with
    | true =>
      have : isStrWhiteSpaceChar '-' = false := by decide
      simp [trimStart, this, scanSign]
    | false =>
      simp only [Bool.false_eq_true, if_false, List.nil_append, trimStart_digit c cs hc,
        scanSign_digit c cs hc]
  unfold parseInt
  simp only [String.toList, hsign, hhex]
  rw [spanChars_all isDecDigit _ hall]
  simp

theorem parseInt_optionValue (neg : Bool) (n : ℕ) (h : n < 2 ^ 53) :
    (parseInt (numberToString (.fin neg n 1))).equal (.fin neg n 1) = true := by
  rcases Nat.eq_zero_or_pos n with h0 | hn
  · subst h0
    cases neg <;> decide
  · obtain ⟨s, z, hstr, hround⟩ := numberToString_int neg n hn h
    have hall : ∀ c ∈ natDigits s ++ List.replicate z '0', isDecDigit c = true := by
      intro c hc
      rcases List.mem_append.mp hc with hc | hc
      · exact natDigits_all_digit s c hc
      · rw [List.eq_of_mem_replicate hc]; decide
    have hne : natDigits s ++ List.replicate z '0' ≠ [] := by
      simp [natDigits_ne_nil s]
    rw [hstr, parseInt_signed_digits neg _ hne hall, decimalValue_append_zeros,
      decimalValue_natDigits, roundToDouble_sign neg _ 1 n 1 hround]
    exact equal_self_fin neg n 1

theorem parseFloat_digits (ip : List Char) (hne : ip ≠ [])
    (hip : ∀ c ∈ ip, isDecDigit c = true) :
    parseFloat (String.mk ip) = roundDecimal false (decimalValue ip) 0 := by
  obtain ⟨c, cs, rfl⟩ : ∃ c cs, ip = c :: cs := by
    cases ip with
    | nil => exact absurd rfl hne
    | cons c cs => exact ⟨c, cs, rfl⟩
  have hc : isDecDigit c = true := hip c (by simp)
  unfold parseFloat
  simp only [String.toList, trimStart_digit c cs hc, scanSign_digit c cs hc,
    scanUnsignedDecimal_digits c cs hip, DecimalMV.toNumber]

theorem parseFloat_decimal (ip fp : List Char) (hne : ip ≠ [])
    (hip : ∀ c ∈ ip, isDecDigit c = true) (hfp : ∀ c ∈ fp, isDecDigit c = true) :
    parseFloat (String.mk (ip ++ '.' :: fp)) =
      roundDecimal false (decimalValue (ip ++ fp)) (-(fp.length : ℤ)) := by
  obtain ⟨c, cs, rfl⟩ : ∃ c cs, ip = c :: cs := by
    cases ip with
    | nil => exact absurd rfl hne
    | cons c cs => exact ⟨c, cs, rfl⟩
  have hc : isDecDigit c = true := hip c (by simp)
  have hI : ¬ 'I' = c := by
    intro e
    rw [← e] at hc
    exact absurd hc (by decide)
  have hspan : spanChars isDecDigit (c :: cs ++ '.' :: fp) = (c :: cs, '.' :: fp) :=
    spanChars_append isDecDigit (c :: cs) ('.' :: fp) hip (by simp; decide)
  have hscan : scanUnsignedDecimal (c :: cs ++ '.' :: fp) =
      some (.finite (decimalValue (c :: cs ++ fp)) (-(fp.length : ℤ)), []) := by
    unfold scanUnsignedDecimal
    have hinf : "Infinity".toList = ['I', 'n', 'f', 'i', 'n', 'i', 't', 'y'] := rfl
    rw [hinf, hspan]
    simp [List.isPrefixOf, hI, spanChars_all isDecDigit fp hfp, scanExponent]
  unfold parseFloat
  simp only [String.toList, List.cons_append, trimStart_digit c _ hc, scanSign_digit c _ hc]
  rw [List.cons_append] at hscan
  simp only [hscan, DecimalMV.toNumber]
  rfl

/-! ## Properties of the total and of the payload -/

/-- C2 (as the claim states it, refuted): `product` and `quantity` are not
integers for every draft.  An empty or non-numeric `quantity` and a `product`
that is the option value of a product with the string id `'abd'` are sent as
`NaN`, which is no integer. -/
theorem C2_payload_not_integers :
    (orderData (orderDraft "2" "" "12.50")).quantity = .nan ∧
    (orderData (orderDraft "2" "" "12.50")).quantity.isInteger = false ∧
    (orderData (orderDraft "2" "abc" "12.50")).quantity.isInteger = false ∧
    (orderData (orderDraft "abd" "3" "12.50")).product = .nan ∧
    (orderData (orderDraft "abd" "3" "12.50")).product.isInteger = false := by
  decide

/-- C2 (amended): the payload carries `customerName`, `customerId` and
`userEmail` unchanged and the literal status `'Order Placed'`.  Its `quantity`
is `parseInt` of the quantity string: an integer, an infinity or `NaN`; the
integer `n` for the decimal numeral of `n < 2^53`; `NaN` when the string has no
number at its head.  Its `product_cost` is `parseFloat` of the productCost
string: the Number nearest to the decimal a plain numeral denotes.  Its
`product` is the integer `n` for the decimal numeral of `n < 2^53`, the id
itself for the option value of an integer id below `2^53`, and an integer or an
infinity whenever it is not `NaN`; what is sent for a product string without
leading digits is not part of this statement. -/
theorem C2_payload_fields (d : FormData) :
    ((orderData d).customer_name = d.customerName ∧
      (orderData d).customer_id = d.customerId ∧
      (orderData d).user_email = d.userEmail ∧
      (orderData d).status = "Order Placed") ∧
    ((orderData d).quantity = parseInt d.quantity ∧
      ((orderData d).quantity = .nan ∨ (∃ neg, (orderData d).quantity = .inf neg) ∨
        (orderData d).quantity.isInteger = true) ∧
      (∀ n : ℕ, n < 2 ^ 53 → d.quantity = String.mk (natDigits n) →
        (orderData d).quantity = .fin false n 1) ∧
      (parseFloat d.quantity = .nan → (orderData d).quantity = .nan)) ∧
    ((orderData d).product_cost = parseFloat d.productCost ∧
      (∀ ip : List Char, ip ≠ [] → (∀ c ∈ ip, isDecDigit c = true) →
        d.productCost = String.mk ip →
        (orderData d).product_cost = roundDecimal false (decimalValue ip) 0) ∧
      (∀ ip fp : List Char, ip ≠ [] → (∀ c ∈ ip, isDecDigit c = true) →
        (∀ c ∈ fp, isDecDigit c = true) → d.productCost = String.mk (ip ++ '.' :: fp) →
        (orderData d).product_cost =
          roundDecimal false (decimalValue (ip ++ fp)) (-(fp.length : ℤ)))) ∧
    ((∀ n : ℕ, n < 2 ^ 53 → d.product = String.mk (natDigits n) →
        (orderData d).product = .fin false n 1) ∧
      (∀ (neg : Bool) (n : ℕ), n < 2 ^ 53 →
        d.product = (JSValue.num (.fin neg n 1)).toStr →
        ((orderData d).product).equal (.fin neg n 1) = true) ∧
      ((orderData d).product ≠ .nan →
        (∃ neg, (orderData d).product = .inf neg) ∨
          (orderData d).product.isInteger = true)) := by
  have hint : ∀ s : String, parseInt s = .nan ∨ (∃ neg, parseInt s = .inf neg) ∨
      (parseInt s).isInteger = true := by
    intro s
    rcases parseInt_integer s with h | h | ⟨neg, m, h⟩
    · exact Or.inl h
    · exact Or.inr (Or.inl h)
    · exact Or.inr (Or.inr (by rw [h]; simp [JSNumber.isInteger]))
  refine ⟨⟨rfl, rfl, rfl, rfl⟩, ⟨rfl, hint _, ?_, ?_⟩, ⟨rfl, ?_, ?_⟩, ⟨?_, ?_, ?_⟩⟩
  · intro n hn hd
    show parseInt d.quantity = _
    rw [hd]; exact parseInt_natDigits n hn
  · intro h
    exact parseInt_nan_of_parseFloat_nan _ h
  · intro ip hne hip hd
    show parseFloat d.productCost = _
    rw [hd]; exact parseFloat_digits ip hne hip
  · intro ip fp hne hip hfp hd
    show parseFloat d.productCost = _
    rw [hd]; exact parseFloat_decimal ip fp hne hip hfp
  · intro n hn hd
    show parseInt d.product = _
    rw [hd]; exact parseInt_natDigits n hn
  · intro neg n hn hd
    show (parseInt d.product).equal _ = true
    rw [hd]; exact parseInt_optionValue neg n hn
  · intro hnan
    rcases hint d.product with h | h | h
    · exact absurd h hnan
    · exact Or.inl h
    · exact Or.inr h

set_option maxRecDepth 100000 in
/-- Witness for C2: product `'2'`, quantity `'3'` and productCost `'12.50'` are
sent as the Numbers 2, 3 and 12.5. -/
theorem C2_payload_fields_witness :
    (orderData (orderDraft "2" "3" "12.50")).customer_name = "Ann" ∧
    (orderData (orderDraft "2" "3" "12.50")).status = "Order Placed" ∧
    (orderData (orderDraft "2" "3" "12.50")).product = .fin false 2 1 ∧
    (orderData (orderDraft "2" "3" "12.50")).quantity = .fin false 3 1 ∧
    (orderData (orderDraft "2" "3" "12.50")).product_cost = .fin false 25 2 :=
  ⟨(C2_payload_fields (orderDraft "2" "3" "12.50")).1.1,
   (C2_payload_fields (orderDraft "2" "3" "12.50")).1.2.2.2,
   (C2_payload_fields (orderDraft "2" "3" "12.50")).2.2.2.1 2 (by norm_num) (by decide),
   (C2_payload_fields (orderDraft "2" "3" "12.50")).2.1.2.2.1 3 (by norm_num) (by decide),
   ((C2_payload_fields (orderDraft "2" "3" "12.50")).2.2.1.2.2 ['1', '2'] ['5', '0']
      (by decide) (by decide) (by decide) (by decide)).trans (by decide)⟩

set_option maxRecDepth 100000 in
set_option exponentiation.threshold 2000 in
/-- C3 (as the claim states it, refuted): with quantity `'1'` and productCost
`'1.015'` the exact product rounded to two decimals is `1.02` but
`calculateTotal` returns `'1.01'`, because the Number nearest to 1.015 lies
below it; and with quantity `'1000000000000000000000'` and productCost `'1'`
it returns `'1e+21'`, which has no fractional digits at all. -/
theorem C3_total_not_exact_product :
    calculateTotal (draftOf "1" "1.015") = "1.01" ∧
    specTotal (draftOf "1" "1.015") = some "1.02" ∧
    calculateTotal (draftOf "1000000000000000000000" "1") = "1e+21" ∧
    specTotal (draftOf "1000000000000000000000" "1") = some "1000000000000000000000.00" := by
  decide

set_option maxRecDepth 100000 in
/-- C3 (amended): whenever the Number product `x` of the two parsed fields is
finite with `|x| < 10^21`, `calculateTotal` returns `x` rounded to the nearest
hundredth, a tie going away from zero, and written with exactly two fractional
digits: a sign for a negative `x`, the digits of `⌊n / 100⌋`, a point and the
two digits of `n mod 100`, where `n / 100 - 1 / 200 ≤ |x| < n / 100 + 1 / 200`.
Here `x` is the binary64 product of the binary64 values of the two fields, not
their exact product.  Quantity `'3'` and productCost `'12.50'` give `'37.50'`,
and the total block shows the result whenever both fields are non-empty. -/
theorem C3_total_rounds_number_product (d : FormData) (neg : Bool) (a b : ℕ)
    (hx : (parseFloat d.quantity).orZero.mul (parseFloat d.productCost).orZero = .fin neg a b)
    (hlt : a < 10 ^ 21 * b) :
    (∃ n : ℕ, ((n : ℚ) / 100 - 1 / 200 ≤ (a : ℚ) / (b : ℚ) ∧
        (a : ℚ) / (b : ℚ) < (n : ℚ) / 100 + 1 / 200) ∧
      calculateTotal d =
        String.mk ((if neg = true ∧ a ≠ 0 then ['-'] else []) ++
          (natDigits (n / 100) ++ ['.', digitChar (n % 100 / 10), digitChar (n % 10)]))) ∧
    calculateTotal (draftOf "3" "12.50") = "37.50" ∧
    (∀ st : State, st.formData = d → d.quantity ≠ "" → d.productCost ≠ "" →
      totalBlock st = some ("$" ++ calculateTotal d)) := by
  have hb : 0 < b := by
    rcases Nat.eq_zero_or_pos b with h | h
    · rw [h] at hlt; simp at hlt
    · exact h
  refine ⟨⟨nearestHundredth a b, nearestHundredth_close a b hb, ?_⟩, by decide, ?_⟩
  · have hnot : ¬ 10 ^ 21 * b ≤ a := by omega
    simp only [calculateTotal, hx, toFixed2, hnot, if_false, hundredthsDigits_eq]
  · intro st hst hq hc
    simp [totalBlock, hst, hq, hc]

set_option maxRecDepth 100000 in
/-- Witness for C3: quantity `'3'` and productCost `'12.50'`, whose Number
product is `75 / 2`. -/
theorem C3_total_rounds_number_product_witness :
    (parseFloat (draftOf "3" "12.50").quantity).orZero.mul
        (parseFloat (draftOf "3" "12.50").productCost).orZero = .fin false 75 2 ∧
    (75 : ℕ) < 10 ^ 21 * 2 ∧
    ∃ n : ℕ, ((n : ℚ) / 100 - 1 / 200 ≤ ((75 : ℕ) : ℚ) / ((2 : ℕ) : ℚ) ∧
        ((75 : ℕ) : ℚ) / ((2 : ℕ) : ℚ) < (n : ℚ) / 100 + 1 / 200) ∧
      calculateTotal (draftOf "3" "12.50") =
        String.mk ((if false = true ∧ 75 ≠ 0 then ['-'] else []) ++
          (natDigits (n / 100) ++ ['.', digitChar (n % 100 / 10), digitChar (n % 10)])) :=
  ⟨by decide, by decide,
    (C3_total_rounds_number_product (draftOf "3" "12.50") false 75 2 (by decide) (by decide)).1⟩

/-- C10 (as the claim states it, refuted): a quantity `'abc'` is sent as `NaN`,
not as `0`; a quantity `'12abc'` is not a valid number, yet the total uses 12
for it; and with quantity `'abc'` and productCost `'Infinity'` the total is
`'NaN'`, not `'0.00'`. -/
theorem C10_payload_not_coerced :
    (orderData (draftOf "abc" "5")).quantity = .nan ∧
    (orderData (draftOf "abc" "5")).quantity ≠ JSNumber.zero ∧
    (orderData (draftOf "5" "abc")).product_cost = .nan ∧
    calculateTotal (draftOf "12abc" "1") = "12.00" ∧
    calculateTotal (draftOf "abc" "Infinity") = "NaN" := by
  decide

/-- C10 (amended): when `parseFloat` finds no number at the head of the
`quantity` or of the `productCost` string, `calculateTotal` uses `+0` for that
field, and the total is `'0.00'` provided neither field parses to an infinity;
the payload is not coerced: it carries `NaN` for a `quantity`, `product` or
`product_cost` whose string `parseFloat` cannot read.  Both operations are
total functions: no validation error is raised. -/
theorem C10_invalid_numbers (d : FormData) :
    (parseFloat d.quantity = .nan → (parseFloat d.quantity).orZero = JSNumber.zero) ∧
    (parseFloat d.productCost = .nan → (parseFloat d.productCost).orZero = JSNumber.zero) ∧
    ((parseFloat d.quantity = .nan ∨ parseFloat d.productCost = .nan) →
      (∀ neg, parseFloat d.quantity ≠ .inf neg) →
      (∀ neg, parseFloat d.productCost ≠ .inf neg) →
      calculateTotal d = "0.00") ∧
    (parseFloat d.quantity = .nan → (orderData d).quantity = .nan) ∧
    (parseFloat d.product = .nan → (orderData d).product = .nan) ∧
    (parseFloat d.productCost = .nan → (orderData d).product_cost = .nan) := by
  refine ⟨?_, ?_, ?_, ?_, ?_, ?_⟩
  · intro h; rw [h]; rfl
  · intro h; rw [h]; rfl
  · intro h hq hc
    unfold calculateTotal
    rcases h with h | h
    · have e : (parseFloat d.quantity).orZero = JSNumber.zero := by rw [h]; rfl
      simp only [e]
      exact (zero_mul_orZero _ hc).1
    · have e : (parseFloat d.productCost).orZero = JSNumber.zero := by rw [h]; rfl
      simp only [e]
      exact (zero_mul_orZero _ hq).2
  · intro h; exact parseInt_nan_of_parseFloat_nan _ h
  · intro h; exact parseInt_nan_of_parseFloat_nan _ h
  · intro h; exact h

/-- Witness for C10: quantity `'abc'` with productCost `'5'`. -/
theorem C10_invalid_numbers_witness :
    parseFloat (draftOf "abc" "5").quantity = .nan ∧
    calculateTotal (draftOf "abc" "5") = "0.00" ∧
    (orderData (draftOf "abc" "5")).quantity = .nan :=
  ⟨by decide,
   (C10_invalid_numbers (draftOf "abc" "5")).2.2.1 (Or.inl (by decide))
     (fun neg => by cases neg <;> decide) (fun neg => by cases neg <;> decide),
   (C10_invalid_numbers (draftOf "abc" "5")).2.2.2.1 (by decide)⟩

/-! ## Properties of the submit handler -/

/-- C4: when `handleSubmit` runs and the POST succeeds, every draft field is the
empty string, the submission status is `'success'`, the success banner is shown
and the error banner is not. -/
theorem C4_success_clears_draft (s : State) :
    (handleSubmit s .fulfilled).formData.customerName = "" ∧
    (handleSubmit s .fulfilled).formData.customerId = "" ∧
    (handleSubmit s .fulfilled).formData.quantity = "" ∧
    (handleSubmit s .fulfilled).formData.product = "" ∧
    (handleSubmit s .fulfilled).formData.productCost = "" ∧
    (handleSubmit s .fulfilled).formData.userEmail = "" ∧
    (handleSubmit s .fulfilled).formData = emptyFormData ∧
    (handleSubmit s .fulfilled).submitStatus = some "success" ∧
    successBanner (handleSubmit s .fulfilled) = true ∧
    errorBanner (handleSubmit s .fulfilled) = false := by
  refine ⟨rfl, rfl, rfl, rfl, rfl, rfl, rfl, rfl, ?_, ?_⟩ <;>
    simp [successBanner, errorBanner, handleSubmit, handleSubmitSettle, handleSubmitStart]

/-- C5: for every kind of submission failure (error response, no response, any
other exception) `handleSubmit` leaves the draft exactly as it was and sets the
submission status to `'error'`; the resulting state does not depend on the kind
of failure. -/
theorem C5_failure_keeps_draft (s : State) (o : PostOutcome) (ho : o ≠ .fulfilled) :
    (handleSubmit s o).formData = s.formData ∧
    (handleSubmit s o).submitStatus = some "error" ∧
    errorBanner (handleSubmit s o) = true ∧
    successBanner (handleSubmit s o) = false ∧
    ∀ o2 : PostOutcome, o2 ≠ .fulfilled → handleSubmit s o2 = handleSubmit s o := by
  have key : ∀ o2 : PostOutcome, o2 ≠ .fulfilled →
      handleSubmit s o2 = { s with submitStatus := some "error", isSubmitting := false } := by
    intro o2 h2
    cases o2 with
    | fulfilled => exact absurd rfl h2
    | errorResponse => rfl
    | errorRequest => rfl
    | errorOther => rfl
  rw [key o ho]
  refine ⟨rfl, rfl, ?_, ?_, fun o2 h2 => key o2 h2⟩ <;> simp [successBanner, errorBanner]

/-- Witness for C5: a non-empty draft whose POST is answered by an error response. -/
theorem C5_failure_keeps_draft_witness :
    (handleSubmit { initialState with formData := { emptyFormData with customerName := "Ann" } }
        .errorResponse).formData = { emptyFormData with customerName := "Ann" } ∧
    (handleSubmit { initialState with formData := { emptyFormData with customerName := "Ann" } }
        .errorResponse).submitStatus = some "error" :=
  ⟨(C5_failure_keeps_draft _ .errorResponse (by decide)).1,
   (C5_failure_keeps_draft _ .errorResponse (by decide)).2.1⟩

/-- C8: `handleSubmit` first sets `isSubmitting` to true and the status to none;
for every outcome of the POST it finishes with `isSubmitting` false and the
status exactly one of `'success'` and `'error'`; afterwards the submit button is
disabled only by the product fetch (so it is enabled again if it was enabled
before the submission), and a further submission starts in the same way. -/
theorem C8_submission_machine (s : State) (o : PostOutcome) :
    (handleSubmitStart s).isSubmitting = true ∧
    (handleSubmitStart s).submitStatus = none ∧
    (handleSubmit s o).isSubmitting = false ∧
    (((handleSubmit s o).submitStatus = some "success" ∧
        (handleSubmit s o).submitStatus ≠ some "error") ∨
      ((handleSubmit s o).submitStatus = some "error" ∧
        (handleSubmit s o).submitStatus ≠ some "success")) ∧
    submitDisabled (handleSubmit s o) = selectDisabled s ∧
    (submitDisabled s = false → submitDisabled (handleSubmit s o) = false) ∧
    (handleSubmitStart (handleSubmit s o)).isSubmitting = true ∧
    (handleSubmitStart (handleSubmit s o)).submitStatus = none := by
  have hd : submitDisabled (handleSubmit s o) = selectDisabled s := by
    cases o <;>
      simp [submitDisabled, selectDisabled, handleSubmit, handleSubmitSettle, handleSubmitStart]
  refine ⟨rfl, rfl, ?_, ?_, hd, ?_, rfl, rfl⟩
  · cases o <;> rfl
  · cases o <;> simp [handleSubmit, handleSubmitSettle, handleSubmitStart]
  · intro h
    rw [hd]
    simp only [submitDisabled, Bool.or_eq_false_iff] at h
    simp [selectDisabled, h.1.2, h.2]

/-! ## Properties of the product fetch and of the view -/

theorem handleInputChange_productsError (s : State) (name value : String) :
    (handleInputChange s name value).productsError = s.productsError := by
  unfold handleInputChange
  cases s.products with
  | none => rfl
  | some products =>
    simp only
    split
    · split <;> rfl
    · rfl

theorem handleInputChange_productsLoading (s : State) (name value : String) :
    (handleInputChange s name value).productsLoading = s.productsLoading := by
  unfold handleInputChange
  cases s.products with
  | none => rfl
  | some products =>
    simp only
    split
    · split <;> rfl
    · rfl

theorem step_errorWellFormed (s : State) (e : Event) (h : ErrorWellFormed s) :
    ErrorWellFormed (step s e) := by
  cases e with
  | change name value =>
    simpa [ErrorWellFormed, step, handleInputChange_productsError] using h
  | submit => exact h
  | postSettled o => cases o <;> exact h
  | retry => exact Or.inl rfl
  | fetchSettled r =>
    cases r with
    | fulfilled data => exact h
    | rejected => exact Or.inr rfl

theorem foldl_step_errorWellFormed (es : List Event) :
    ∀ s : State, ErrorWellFormed s → ErrorWellFormed (es.foldl step s) := by
  induction es with
  | nil => intro s h; exact h
  | cons e es ih => intro s h; exact ih (step s e) (step_errorWellFormed s e h)

theorem reachable_errorWellFormed (s : State) (h : Reachable s) : ErrorWellFormed s := by
  obtain ⟨es, rfl⟩ := h
  exact foldl_step_errorWellFormed es _ (Or.inl rfl)

theorem truthy_iff_of_wellFormed (s : State) (h : ErrorWellFormed s) :
    truthy s.productsError = true ↔ s.productsError ≠ none := by
  rcases h with h | h <;> rw [h] <;> simp [truthy, fetchErrorMessage]

/-- C6: in every state the component can reach, the submit button is enabled
exactly when `isSubmitting` is false, `productsLoading` is false and
`productsError` is null, and the product selector is disabled exactly when the
product fetch is pending or has failed. -/
theorem C6_disabled_controls (s : State) (h : Reachable s) :
    (submitDisabled s = false ↔
      (s.isSubmitting = false ∧ s.productsLoading = false ∧ s.productsError = none)) ∧
    (selectDisabled s = true ↔ (s.productsLoading = true ∨ s.productsError ≠ none)) := by
  have ht := truthy_iff_of_wellFormed s (reachable_errorWellFormed s h)
  have hf : truthy s.productsError = false ↔ s.productsError = none := by
    rw [← not_iff_not]
    simpa using ht
  constructor
  · simp only [submitDisabled, Bool.or_eq_false_iff, hf, and_assoc]
  · simp only [selectDisabled, Bool.or_eq_true, ht]

/-- Witness for C6: the state after the first fetch has failed. -/
theorem C6_disabled_controls_witness :
    Reachable (run [.fetchSettled .rejected]) ∧
    (submitDisabled (run [.fetchSettled .rejected]) = false ↔
      ((run [.fetchSettled .rejected]).isSubmitting = false ∧
        (run [.fetchSettled .rejected]).productsLoading = false ∧
        (run [.fetchSettled .rejected]).productsError = none)) :=
  ⟨⟨_, rfl⟩, (C6_disabled_controls _ ⟨_, rfl⟩).1⟩

/-- C7: the component starts in loading; a fetch that is fulfilled ends with
`productsLoading` false, `productsError` null and `products` the response data
(phase loaded); a fetch that is rejected ends with `productsLoading` false,
`productsError` non-null and `products` the empty list (phase error, retry
button shown); retry sets `productsLoading` true and `productsError` null
(phase loading) before the new fetch settles; editing and submitting never
change the phase. -/
theorem C7_fetch_machine (s : State) (data : List Product) :
    (initialState.productsLoading = true ∧ fetchPhase (run []) = .loading) ∧
    ((fetchProducts s (.fulfilled data)).productsLoading = false ∧
      (fetchProducts s (.fulfilled data)).productsError = none ∧
      (fetchProducts s (.fulfilled data)).products = some data ∧
      fetchPhase (fetchProducts s (.fulfilled data)) = .loaded) ∧
    ((fetchProducts s .rejected).productsLoading = false ∧
      (fetchProducts s .rejected).productsError ≠ none ∧
      (fetchProducts s .rejected).products = some [] ∧
      fetchPhase (fetchProducts s .rejected) = .error ∧
      retryVisible (fetchProducts s .rejected) = true) ∧
    ((retryFetchProducts (fetchProducts s .rejected)).productsLoading = true ∧
      (retryFetchProducts (fetchProducts s .rejected)).productsError = none ∧
      fetchPhase (retryFetchProducts (fetchProducts s .rejected)) = .loading) ∧
    ((fetchProductsSettle (.fulfilled data)
        (retryFetchProducts (fetchProducts s .rejected))).productsLoading = false ∧
      (fetchProductsSettle (.fulfilled data)
        (retryFetchProducts (fetchProducts s .rejected))).productsError = none ∧
      (fetchProductsSettle (.fulfilled data)
        (retryFetchProducts (fetchProducts s .rejected))).products = some data) ∧
    (∀ name value, fetchPhase (handleInputChange s name value) = fetchPhase s) ∧
    (∀ o, fetchPhase (handleSubmitStart s) = fetchPhase s ∧
      fetchPhase (handleSubmitSettle o s) = fetchPhase s) := by
  refine ⟨⟨rfl, rfl⟩, ⟨rfl, rfl, rfl, rfl⟩, ⟨rfl, ?_, rfl, ?_, ?_⟩, ⟨rfl, rfl, rfl⟩,
    ⟨rfl, rfl, rfl⟩, ?_, ?_⟩
  · simp [fetchProducts, fetchProductsSettle]
  · simp [fetchPhase, fetchProducts, fetchProductsSettle, truthy, fetchErrorMessage]
  · simp [retryVisible, fetchProducts, fetchProductsSettle, truthy, fetchErrorMessage]
  · intro name value
    simp [fetchPhase, handleInputChange_productsError, handleInputChange_productsLoading]
  · intro o
    constructor
    · rfl
    · cases o <;> rfl

/-- C9: after a fulfilled fetch of `N` products the product selector holds
`N + 1` options: one placeholder with the empty value, then one option per
product in catalogue order, the i-th carrying the string form of the i-th
product's id as its value. -/
theorem C9_product_options (s : State) (data : List Product) :
    (productOptions (fetchProducts s (.fulfilled data))).length = data.length + 1 ∧
    (productOptions (fetchProducts s (.fulfilled data))).map OptionElem.value =
      "" :: data.map (fun p => p.id.toStr) := by
  cases data with
  | nil => exact ⟨rfl, rfl⟩
  | cons p ps =>
    simp [productOptions, fetchProducts, fetchProductsSettle, fetchProductsStart, truthy,
      Function.comp_def]


/-! ## The frame of a change event -/

theorem getExtra_setExtra_same (l : List (String × String)) (name value : String) :
    getExtra (setExtra l name value) name = some value := by
  induction l with
  | nil => simp [setExtra, getExtra]
  | cons kv rest ih =>
    obtain ⟨k, v⟩ := kv
    by_cases h : k = name
    · simp [setExtra, getExtra, h]
    · simp [setExtra, getExtra, h, ih]

theorem getExtra_setExtra_other (l : List (String × String)) (name value other : String)
    (h : other ≠ name) : getExtra (setExtra l name value) other = getExtra l other := by
  induction l with
  | nil => simp [setExtra, getExtra, Ne.symm h]
  | cons kv rest ih =>
    obtain ⟨k, v⟩ := kv
    by_cases hk : k = name
    · have hko : ¬ k = other := fun e => h (e ▸ hk)
      simp [setExtra, getExtra, hk, hko, Ne.symm h]
    · by_cases hko : k = other
      · subst hko
        simp [setExtra, getExtra, hk]
      · simp [setExtra, getExtra, hk, hko, ih]

theorem get_set_same (d : FormData) (name value : String) :
    (d.set name value).get name = some value := by
  unfold FormData.set
  split_ifs with h1 h2 h3 h4 h5 h6
  · simp [FormData.get, h1]
  · simp [FormData.get, h2]
  · simp [FormData.get, h3]
  · simp [FormData.get, h4]
  · simp [FormData.get, h5]
  · simp [FormData.get, h6]
  · simp [FormData.get, h1, h2, h3, h4, h5, h6, getExtra_setExtra_same]

theorem get_set_other (d : FormData) (name value other : String) (h : other ≠ name) :
    (d.set name value).get other = d.get other := by
  unfold FormData.set
  split_ifs with h1 h2 h3 h4 h5 h6
  · subst h1; simp [FormData.get, h]
  · subst h2; simp [FormData.get, h]
  · subst h3; simp [FormData.get, h]
  · subst h4; simp [FormData.get, h]
  · subst h5; simp [FormData.get, h]
  · subst h6; simp [FormData.get, h]
  · simp only [FormData.get, getExtra_setExtra_other _ _ _ _ h]

theorem get_withProductCost (d : FormData) (c other : String) (h : other ≠ "productCost") :
    ({ d with productCost := c } : FormData).get other = d.get other := by
  simp [FormData.get, h]

theorem handleInputChange_formData (s : State) (name value : String) :
    (handleInputChange s name value).formData =
      match (if name = "product" then
          (s.products.getD []).find? (fun p => p.id.strictEq (convertedValue value))
        else none) with
      | some p => { s.formData.set name value with productCost := p.cost.toStr }
      | none => s.formData.set name value := by
  unfold handleInputChange convertedValue
  cases hp : s.products with
  | none => by_cases hn : name = "product" <;> simp [hn]
  | some products =>
    by_cases hn : name = "product"
    · cases products with
      | nil => simp [hn]
      | cons q qs =>
        simp only [hn, List.length_cons, Nat.zero_lt_succ, and_self, if_true, Option.getD_some]
        split <;> rename_i hf <;> simp [hf]
    · simp [hn]

theorem costOverwritten_iff (s : State) (name value : String) :
    costOverwritten s name value ↔
      ∃ p, (if name = "product" then
          (s.products.getD []).find? (fun p => p.id.strictEq (convertedValue value))
        else none) = some p := by
  unfold costOverwritten
  by_cases hn : name = "product"
  · simp only [hn, true_and, if_true]
    rw [← Option.isSome_iff_exists, List.find?_isSome]
    constructor
    · rintro ⟨products, hs, p, hp, he⟩
      exact ⟨p, by simpa [hs] using hp, he⟩
    · rintro ⟨p, hp, he⟩
      cases hs : s.products with
      | none => simp [hs] at hp
      | some products => exact ⟨products, rfl, p, by simpa [hs] using hp, he⟩
  · simp [hn]

/-- C11: `handleInputChange` sets the named field to the value and leaves every
other draft field unchanged, with one exception only: when the field is
`'product'` and some product of the (loaded, non-empty) catalogue has an id
strictly equal to the converted value, `productCost` is also overwritten, with
the cost of the first such product.  The empty placeholder value converts to
the Number 0, so when no product has id 0 choosing it changes `product` only.
No other cell of the component state changes. -/
theorem C11_change_frame (s : State) (name value : String) :
    (handleInputChange s name value).formData.get name = some value ∧
    (∀ other : String, other ≠ name →
      (other ≠ "productCost" ∨ ¬ costOverwritten s name value) →
      (handleInputChange s name value).formData.get other = s.formData.get other) ∧
    (¬ costOverwritten s name value →
      (handleInputChange s name value).formData = s.formData.set name value) ∧
    (costOverwritten s name value →
      ∃ p, (s.products.getD []).find? (fun p => p.id.strictEq (convertedValue value)) = some p ∧
        (handleInputChange s name value).formData =
          { s.formData.set name value with productCost := p.cost.toStr }) ∧
    (convertedValue "" = .num JSNumber.zero ∧
      (name = "product" → value = "" →
        (∀ p ∈ s.products.getD [], p.id.strictEq (.num JSNumber.zero) = false) →
        (handleInputChange s name value).formData = { s.formData with product := "" })) ∧
    ((handleInputChange s name value).isSubmitting = s.isSubmitting ∧
      (handleInputChange s name value).submitStatus = s.submitStatus ∧
      (handleInputChange s name value).products = s.products ∧
      (handleInputChange s name value).productsLoading = s.productsLoading ∧
      (handleInputChange s name value).productsError = s.productsError) := by
  have hform := handleInputChange_formData s name value
  have hiff := costOverwritten_iff s name value
  have hnot : ¬ costOverwritten s name value →
      (handleInputChange s name value).formData = s.formData.set name value := by
    intro hc
    rw [hiff] at hc
    cases hf : (if name = "product" then
        (s.products.getD []).find? (fun p => p.id.strictEq (convertedValue value))
      else none) with
    | none => rw [hform, hf]
    | some p => exact absurd ⟨p, hf⟩ hc
  have hyes : costOverwritten s name value →
      ∃ p, (s.products.getD []).find? (fun p => p.id.strictEq (convertedValue value)) = some p ∧
        (handleInputChange s name value).formData =
          { s.formData.set name value with productCost := p.cost.toStr } := by
    intro hc
    have hn : name = "product" := hc.1
    obtain ⟨p, hp⟩ := hiff.mp hc
    refine ⟨p, by simpa [hn] using hp, ?_⟩
    rw [hform, hp]
  have hzero : convertedValue "" = .num JSNumber.zero := by decide
  refine ⟨?_, ?_, hnot, hyes, ⟨hzero, ?_⟩, ?_⟩
  · by_cases hc : costOverwritten s name value
    · obtain ⟨p, _, hp⟩ := hyes hc
      have hn : name = "product" := hc.1
      rw [hp, get_withProductCost _ _ _ (by rw [hn]; decide), get_set_same]
    · rw [hnot hc, get_set_same]
  · intro other hne hor
    by_cases hc : costOverwritten s name value
    · obtain ⟨p, _, hp⟩ := hyes hc
      have ho : other ≠ "productCost" := by
        rcases hor with h | h
        · exact h
        · exact absurd hc h
      rw [hp, get_withProductCost _ _ _ ho, get_set_other _ _ _ _ hne]
    · rw [hnot hc, get_set_other _ _ _ _ hne]
  · intro hn hv hall
    have hc : ¬ costOverwritten s name value := by
      rintro ⟨_, products, hs, p, hp, he⟩
      rw [hv, hzero] at he
      have := hall p (by simpa [hs] using hp)
      rw [this] at he
      exact absurd he (by decide)
    rw [hnot hc, hn, hv, formData_set_product]
  · unfold handleInputChange
    cases s.products with
    | none => exact ⟨rfl, rfl, rfl, rfl, rfl⟩
    | some products =>
      simp only
      split
      · split <;> exact ⟨rfl, rfl, rfl, rfl, rfl⟩
      · exact ⟨rfl, rfl, rfl, rfl, rfl⟩

/-- Witness for C11: choosing the placeholder in a catalogue whose ids are 1
and 2 changes `product` only and keeps the hand-edited cost `'9.99'`. -/
theorem C11_change_frame_witness :
    (handleInputChange (loadedState smallCatalogue
        { draftOf "2" "9.99" with product := "2" }) "product" "").formData =
      { draftOf "2" "9.99" with product := "" } :=
  (C11_change_frame (loadedState smallCatalogue { draftOf "2" "9.99" with product := "2" })
    "product" "").2.2.2.2.1.2 rfl rfl (by decide)

end OrderTrack
